import Mathlib

/-!
# quatkram: `tetra2pos` position solver and `faccwrap~` accumulator

A shallow embedding of `src/tetra2pos.c` (namespace `Tetra2pos`) and of `src/faccwrap~.c`
(namespace `Faccwrap`).  The definitions of both come first, the theorems after them.

* `t_float` is a type parameter `F` carrying the structure of a linearly ordered field
  (the real numbers in the theorems that need square roots, the rationals when a
  definition is evaluated).  Rounding of machine floats is outside the model; a float
  constant of the source stands for the number it denotes, so `0.0001f` is
  `13743895 / 2 ^ 37` and not `1 / 10000`.
* `sqrt` of `<math.h>` is a parameter `sqrt : F → F`; `fabs` is the absolute value.
* C arrays `t_float v[3]`, `t_float m[3][3]`, `t_float p[4][3]` are functions on `Fin`.
* The Pure Data calls `pd_error`, `post` and `outlet_list` are recorded, in order, in a
  list of `Effect`s returned next to the new object state.
* A signal block of `faccwrap~` is a list of samples; `remainder` of `<math.h>` is the
  IEEE remainder over the field.
-/

namespace Tetra2pos

variable {F : Type} [LinearOrderedField F]

/-- The fields of `struct _tetra2pos` that carry data (`x_obj` and `position_out` are
handles of the host). -/
structure t_tetra2pos (F : Type) where
  edge_length : F
  positions : Fin 4 → Fin 3 → F
  debug : Int

/-- One call into the host, as the methods of the object make them. -/
inductive Effect (F : Type) where
  | pd_error (msg : String)
  | post (fmt : String) (args : List F)
  | outlet_list (position : Fin 3 → F)

/-- Function `calculate_positions`, lines 15-39: the four microphone positions from
`edge_length`. -/
def calculate_positions (sqrt : F → F) (x : t_tetra2pos F) : t_tetra2pos F :=
  let a := x.edge_length
  let sqrt6 := sqrt 6
  let h := a * sqrt (3 / 8)
  { x with positions :=
      ![![0, a / sqrt6, 0],
        ![-a / 2, -a / (2 * sqrt6), 0],
        ![a / 2, -a / (2 * sqrt6), 0],
        ![0, 0, h]] }

/-- The C conversion `(int)f`: truncation towards zero (the value is taken unbounded). -/
def int_cast [FloorRing F] (f : F) : Int :=
  if 0 ≤ f then ⌊f⌋ else ⌈f⌉

/-- Function `tetra2pos_debug`, lines 41-43. -/
def tetra2pos_debug [FloorRing F] (x : t_tetra2pos F) (f : F) :
    t_tetra2pos F × List (Effect F) :=
  ({ x with debug := int_cast f }, [])

/-- Function `tetra2pos_edge`, lines 45-60. -/
def tetra2pos_edge (sqrt : F → F) (x : t_tetra2pos F) (f : F) :
    t_tetra2pos F × List (Effect F) :=
  if f ≤ 0 then
    (x, [Effect.pd_error "tetra2pos: edge length must be positive"])
  else
    let x1 := calculate_positions sqrt { x with edge_length := f }
    if x1.debug ≠ 0 then
      (x1,
        [Effect.post "tetra2pos: edge length set to %.1f mm" [x1.edge_length],
         Effect.post "tetra2pos: mic positions (mm):" []] ++
        (List.finRange 4).map (fun i =>
          Effect.post "  %d: %.1f %.1f %.1f"
            [(i.val : F), x1.positions i 0, x1.positions i 1, x1.positions i 2]))
    else
      (x1, [])

/-- The 3x3 determinant expansion written out in `solve_linear_system`, lines 63-65 and 78-80. -/
def det3 (A : Fin 3 → Fin 3 → F) : F :=
  A 0 0 * (A 1 1 * A 2 2 - A 1 2 * A 2 1)
    - A 0 1 * (A 1 0 * A 2 2 - A 1 2 * A 2 0)
    + A 0 2 * (A 1 0 * A 2 1 - A 1 1 * A 2 0)

/-- The number the constant `0.0001f` of line 67 denotes: the single-precision float nearest
to `1 / 10000`, which is `13743895 / 2 ^ 37`, about `9.99999975e-5`. -/
def float_0_0001 : F :=
  13743895 / 137438953472

/-- Function `solve_linear_system`, lines 62-83: Cramer's rule with the singular branch. -/
def solve_linear_system (A : Fin 3 → Fin 3 → F) (b : Fin 3 → F) : Fin 3 → F :=
  let det := det3 A
  if |det| < float_0_0001 then
    fun _ => 0
  else
    fun i =>
      let temp : Fin 3 → Fin 3 → F := fun j c => if c = i then b j else A j c
      let det_i := det3 temp
      det_i / det

/-- The matrix `A` filled by the loop of `solve_position_toa`, lines 89-106. -/
def toa_A (positions : Fin 4 → Fin 3 → F) : Fin 3 → Fin 3 → F :=
  fun i =>
    let dx := positions i.succ 0 - positions 0 0
    let dy := positions i.succ 1 - positions 0 1
    let dz := positions i.succ 2 - positions 0 2
    ![2 * dx, 2 * dy, 2 * dz]

/-- The vector `b` filled by the loop of `solve_position_toa`, lines 94-107. -/
def toa_b (distances : Fin 4 → F) (positions : Fin 4 → Fin 3 → F) : Fin 3 → F :=
  fun i =>
    let d0_sq := distances 0 * distances 0
    let di_sq := distances i.succ * distances i.succ
    let p0_sq := positions 0 0 * positions 0 0 + positions 0 1 * positions 0 1
      + positions 0 2 * positions 0 2
    let pi_sq := positions i.succ 0 * positions i.succ 0
      + positions i.succ 1 * positions i.succ 1
      + positions i.succ 2 * positions i.succ 2
    d0_sq - di_sq - p0_sq + pi_sq

/-- Function `solve_position_toa`, lines 85-111. -/
def solve_position_toa (distances : Fin 4 → F) (positions : Fin 4 → Fin 3 → F) :
    Fin 3 → F :=
  solve_linear_system (toa_A positions) (toa_b distances positions)

/-- The inner loop of `solve_position_tdoa`, lines 143-150: the summed deviation between the
distances from `result` to the microphones and `real_distances`. -/
def tdoa_error (sqrt : F → F) (result : Fin 3 → F) (positions : Fin 4 → Fin 3 → F)
    (real_distances : Fin 4 → F) : F :=
  (List.finRange 4).foldl
    (fun error i =>
      let dx := result 0 - positions i 0
      let dy := result 1 - positions i 1
      let dz := result 2 - positions i 2
      let calc_dist := sqrt (dx * dx + dy * dy + dz * dz)
      error + |calc_dist - real_distances i|)
    0

/-- The `for (r1 = 100; r1 < 10000; r1 += 10)` loop of `solve_position_tdoa`, lines 133-156,
entered at `r1` with the current contents of `result`.  The second component counts the calls
of `solve_position_toa` made so far. -/
def tdoa_search [FloorRing F] (sqrt : F → F) (tdoa : Fin 3 → F)
    (positions : Fin 4 → Fin 3 → F) (r1 : F) (result : Fin 3 → F) (solves : Nat) :
    (Fin 3 → F) × Nat :=
  if r1 < 10000 then
    let real_distances : Fin 4 → F := ![r1, r1 + tdoa 0, r1 + tdoa 1, r1 + tdoa 2]
    let result1 := solve_position_toa real_distances positions
    let error := tdoa_error sqrt result1 positions real_distances
    if error < 1.0 then
      (result1, solves + 1)
    else
      tdoa_search sqrt tdoa positions (r1 + 10) result1 (solves + 1)
  else
    (result, solves)
termination_by ⌈(10000 - r1) / 10⌉₊
decreasing_by
  have h1 : (10000 - r1) / 10 = (10000 - (r1 + 10)) / 10 + 1 := by ring
  have h2 : 0 < (10000 - r1) / 10 := by
    apply div_pos <;> linarith
  have h3 : 0 < ⌈(10000 - r1) / 10⌉₊ := Nat.ceil_pos.mpr h2
  rcases le_or_lt 0 ((10000 - (r1 + 10)) / 10) with h | h
  · rw [h1, Nat.ceil_add_one h]
    omega
  · rw [Nat.ceil_eq_zero.mpr h.le]
    exact h3

/-- Function `solve_position_tdoa`, lines 113-157, with the number of TOA solves it made.
`result` is the caller's array as it is on entry. -/
def solve_position_tdoa_run [FloorRing F] (sqrt : F → F) (distances : Fin 4 → F)
    (positions : Fin 4 → Fin 3 → F) (result : Fin 3 → F) : (Fin 3 → F) × Nat :=
  let tdoa : Fin 3 → F := fun i => distances i.succ - distances 0
  tdoa_search sqrt tdoa positions 100 result 0

/-- Function `solve_position_tdoa`, lines 113-157: the contents of `result` on return. -/
def solve_position_tdoa [FloorRing F] (sqrt : F → F) (distances : Fin 4 → F)
    (positions : Fin 4 → Fin 3 → F) (result : Fin 3 → F) : Fin 3 → F :=
  (solve_position_tdoa_run sqrt distances positions result).1

/-- Function `tetra2pos_relative`, lines 159-191.  `atom_getfloat` is the host's reader of an
atom; `position` is the local array as it is before the solve. -/
def tetra2pos_relative [FloorRing F] {A : Type} (atom_getfloat : A → F) (sqrt : F → F)
    (x : t_tetra2pos F) (argv : List A) (position : Fin 3 → F) :
    t_tetra2pos F × List (Effect F) :=
  if h : argv.length ≠ 4 then
    (x, [Effect.pd_error "tetra2pos: relative message expects 4 distances (mm)"])
  else
    let distances : Fin 4 → F := fun i => atom_getfloat (argv.get ⟨i.val, by omega⟩)
    let position1 := solve_position_tdoa sqrt distances x.positions position
    let out := Effect.outlet_list ![position1 0, position1 1, position1 2]
    if x.debug ≠ 0 then
      (x,
        [out,
         Effect.post "tetra2pos: relative distances (mm): %.1f %.1f %.1f %.1f"
           [distances 0, distances 1, distances 2, distances 3],
         Effect.post "tetra2pos: time differences (mm): %.1f %.1f %.1f"
           [distances 1 - distances 0, distances 2 - distances 0, distances 3 - distances 0],
         Effect.post "tetra2pos: position (mm): %.1f %.1f %.1f"
           [position1 0, position1 1, position1 2]])
    else
      (x, [out])

/-- Function `tetra2pos_list`, lines 193-221. -/
def tetra2pos_list {A : Type} (atom_getfloat : A → F) (x : t_tetra2pos F) (argv : List A) :
    t_tetra2pos F × List (Effect F) :=
  if h : argv.length ≠ 4 then
    (x, [Effect.pd_error "tetra2pos: expect 4 absolute distances (mm)"])
  else
    let distances : Fin 4 → F := fun i => atom_getfloat (argv.get ⟨i.val, by omega⟩)
    let position := solve_position_toa distances x.positions
    let out := Effect.outlet_list ![position 0, position 1, position 2]
    if x.debug ≠ 0 then
      (x,
        [out,
         Effect.post "tetra2pos: absolute distances (mm): %.1f %.1f %.1f %.1f"
           [distances 0, distances 1, distances 2, distances 3],
         Effect.post "tetra2pos: position (mm): %.1f %.1f %.1f"
           [position 0, position 1, position 2]])
    else
      (x, [out])

/-- Function `tetra2pos_new`, lines 223-232. -/
def tetra2pos_new (sqrt : F → F) (edge : F) : t_tetra2pos F :=
  calculate_positions sqrt
    { edge_length := if edge > 0 then edge else 1000.0
      positions := fun _ _ => 0
      debug := 0 }

/-- A message to the object, after the methods `tetra2pos_setup` registers, lines 242-245:
a list, `debug f`, `edge f`, or `relative` with any arguments.  The field `position` of
`relative` stands for the contents of the local array of `tetra2pos_relative` before the
solve. -/
inductive Message (F A : Type) where
  | list (argv : List A)
  | debug (f : F)
  | edge (f : F)
  | relative (argv : List A) (position : Fin 3 → F)

/-- The method the class set up by `tetra2pos_setup`, lines 234-246, runs for a message. -/
def tetra2pos_method [FloorRing F] {A : Type} (atom_getfloat : A → F) (sqrt : F → F)
    (x : t_tetra2pos F) : Message F A → t_tetra2pos F × List (Effect F)
  | Message.list argv => tetra2pos_list atom_getfloat x argv
  | Message.debug f => tetra2pos_debug x f
  | Message.edge f => tetra2pos_edge sqrt x f
  | Message.relative argv position => tetra2pos_relative atom_getfloat sqrt x argv position

/-- The object state after a sequence of messages, handled one after the other. -/
def tetra2pos_run [FloorRing F] {A : Type} (atom_getfloat : A → F) (sqrt : F → F)
    (x : t_tetra2pos F) : List (Message F A) → t_tetra2pos F
  | [] => x
  | m :: ms => tetra2pos_run atom_getfloat sqrt (tetra2pos_method atom_getfloat sqrt x m).1 ms

/-! ## Notions the claims are stated with -/

/-- The Euclidean distance `|p - q|`, with the square root as a parameter. -/
def euclid_dist (sqrt : F → F) (p q : Fin 3 → F) : F :=
  sqrt ((p 0 - q 0) * (p 0 - q 0) + (p 1 - q 1) * (p 1 - q 1) + (p 2 - q 2) * (p 2 - q 2))

/-- The four anchors `calculate_positions` writes for the edge length `a`. -/
def anchors (sqrt : F → F) (a : F) : Fin 4 → Fin 3 → F :=
  (calculate_positions sqrt { edge_length := a, positions := fun _ _ => 0, debug := 0 }).positions

/-- The candidate distances at the hypothesised reference distance `r`:
`(r, r + tdoa_0, r + tdoa_1, r + tdoa_2)` with `tdoa_i = distances[i+1] - distances[0]`. -/
def tdoa_cand_distances (distances : Fin 4 → F) (r : F) : Fin 4 → F :=
  ![r, r + (distances 1 - distances 0), r + (distances 2 - distances 0),
    r + (distances 3 - distances 0)]

/-- The candidate position `cand(r)`: the TOA solve of the candidate distances. -/
def tdoa_cand (distances : Fin 4 → F) (positions : Fin 4 → Fin 3 → F) (r : F) : Fin 3 → F :=
  solve_position_toa (tdoa_cand_distances distances r) positions

/-- The total error `err(r)`: the sum over the four anchors of the absolute deviation between
the distance from `cand(r)` to the anchor and the candidate distance. -/
def tdoa_err (sqrt : F → F) (distances : Fin 4 → F) (positions : Fin 4 → Fin 3 → F)
    (r : F) : F :=
  ∑ k : Fin 4,
    |euclid_dist sqrt (tdoa_cand distances positions r) (positions k)
      - tdoa_cand_distances distances r k|

/-- The grid of reference distances: `tdoa_grid k = 100 + 10 k`, so that `k = 0, ..., 989`
gives `100, 110, ..., 9990`. -/
def tdoa_grid (k : Nat) : F :=
  100 + 10 * (k : F)

/-- The positions sent to the outlet among the effects of a method call, in order. -/
def emitted_positions : List (Effect F) → List (Fin 3 → F)
  | [] => []
  | Effect.outlet_list position :: rest => position :: emitted_positions rest
  | Effect.pd_error _ :: rest => emitted_positions rest
  | Effect.post _ _ :: rest => emitted_positions rest

end Tetra2pos

namespace Faccwrap

variable {F : Type} [LinearOrderedField F]

/-- The fields of `struct _faccwrap_tilde` that carry data (`x_obj` and `x_out` are handles
of the host). -/
structure t_faccwrap_tilde (F : Type) where
  f_dummy : F
  f_accum : F

/-- Modelled from the spec: the integer nearest to `x`, ties to even, which is the rounding
the function `remainder` of `<math.h>` uses; that function is not part of the sources. -/
def round_half_even [FloorRing F] (x : F) : Int :=
  if x - (⌊x⌋ : F) < 1 / 2 then ⌊x⌋
  else if 1 / 2 < x - (⌊x⌋ : F) then ⌊x⌋ + 1
  else if ⌊x⌋ % 2 = 0 then ⌊x⌋
  else ⌊x⌋ + 1

/-- Modelled from the spec: the function `remainder` of `<math.h>`, which is not part of the
sources, as the IEEE remainder over the field: `x - n * y` with `n` the integer nearest to
`x / y`, ties to even. -/
def remainder [FloorRing F] (x y : F) : F :=
  x - (round_half_even (x / y) : F) * y

/-- The `while (n--)` loop of `faccwrap_tilde_perform`, lines 40-49, over the input samples
that are left: the final value of `accum` and the output samples written. -/
def perform_loop [FloorRing F] (accum : F) : List F → F × List F
  | [] => (accum, [])
  | sample :: rest =>
    let accum1 := accum + sample
    let accum2 := remainder accum1 2
    let r := perform_loop accum2 rest
    (r.1, accum2 :: r.2)

/-- Function `faccwrap_tilde_perform`, lines 31-55: the input block is the list `input` (its
length is the `n` of the source), the output block is returned next to the new state. -/
def faccwrap_tilde_perform [FloorRing F] (x : t_faccwrap_tilde F) (input : List F) :
    t_faccwrap_tilde F × List F :=
  let r := perform_loop x.f_accum input
  ({ x with f_accum := r.1 }, r.2)

/-- Function `faccwrap_tilde_set`, lines 62-65. -/
def faccwrap_tilde_set [FloorRing F] (x : t_faccwrap_tilde F) (f : F) : t_faccwrap_tilde F :=
  { x with f_accum := remainder f 2 }

/-- Function `faccwrap_tilde_new`, lines 67-77. -/
def faccwrap_tilde_new : t_faccwrap_tilde F :=
  { f_dummy := 0, f_accum := 0 }

end Faccwrap

namespace Tetra2pos

variable {F : Type} [LinearOrderedField F]

/-! ## Auxiliary lemmas -/

theorem vec3_ext {α : Type} {u v : Fin 3 → α} (h0 : u 0 = v 0) (h1 : u 1 = v 1)
    (h2 : u 2 = v 2) : u = v := by
  funext i
  fin_cases i
  · exact h0
  · exact h1
  · exact h2

theorem vec3_eta {α : Type} (u : Fin 3 → α) : ![u 0, u 1, u 2] = u :=
  vec3_ext rfl rfl rfl

theorem zero_vec3 {α : Type} [Zero α] : (fun _ => 0 : Fin 3 → α) = ![0, 0, 0] :=
  vec3_ext rfl rfl rfl

theorem thr_pos : (0 : F) < float_0_0001 := by
  unfold float_0_0001
  norm_num

/-- The constant `0.0001f` is below `1 / 10000`. -/
theorem thr_lt : (float_0_0001 : F) < 0.0001 := by
  unfold float_0_0001
  norm_num

theorem thr_le_of_le {x : F} (h : 0.0001 ≤ x) : float_0_0001 ≤ x :=
  le_trans thr_lt.le h

theorem calculate_positions_positions (sqrt : F → F) (x : t_tetra2pos F) :
    (calculate_positions sqrt x).positions = anchors sqrt x.edge_length := rfl

theorem solve_linear_system_singular (A : Fin 3 → Fin 3 → F) (b : Fin 3 → F)
    (h : |det3 A| < float_0_0001) : solve_linear_system A b = ![0, 0, 0] := by
  unfold solve_linear_system
  simp only [h, if_true]
  exact zero_vec3

/-- Cramer's rule returns `x` when the right-hand side is `A x` and the singular branch is
not taken. -/
theorem solve_linear_system_mul_of_thr (A : Fin 3 → Fin 3 → F) (x b : Fin 3 → F)
    (h : float_0_0001 ≤ |det3 A|)
    (hb : ∀ i, b i = A i 0 * x 0 + A i 1 * x 1 + A i 2 * x 2) :
    solve_linear_system A b = x := by
  have hd : det3 A ≠ 0 := by
    intro h0
    rw [h0, abs_zero] at h
    exact absurd h (not_le.mpr thr_pos)
  unfold solve_linear_system
  simp only [not_lt.mpr h, if_false]
  apply vec3_ext
  · simp [det3, hb] at hd ⊢
    field_simp
    ring
  · simp [det3, hb] at hd ⊢
    field_simp
    ring
  · simp [det3, hb] at hd ⊢
    field_simp
    ring

/-- The same for a determinant of absolute value at least `1 / 10000`. -/
theorem solve_linear_system_mul (A : Fin 3 → Fin 3 → F) (x b : Fin 3 → F)
    (h : 0.0001 ≤ |det3 A|) (hb : ∀ i, b i = A i 0 * x 0 + A i 1 * x 1 + A i 2 * x 2) :
    solve_linear_system A b = x :=
  solve_linear_system_mul_of_thr A x b (thr_le_of_le h) hb

theorem euclid_dist_mul_self (p q : Fin 3 → ℝ) :
    euclid_dist Real.sqrt p q * euclid_dist Real.sqrt p q
      = (p 0 - q 0) * (p 0 - q 0) + (p 1 - q 1) * (p 1 - q 1) + (p 2 - q 2) * (p 2 - q 2) := by
  unfold euclid_dist
  apply Real.mul_self_sqrt
  nlinarith [mul_self_nonneg (p 0 - q 0), mul_self_nonneg (p 1 - q 1),
    mul_self_nonneg (p 2 - q 2)]

theorem euclid_dist_nonneg (p q : Fin 3 → ℝ) : 0 ≤ euclid_dist Real.sqrt p q :=
  Real.sqrt_nonneg _

/-- With the exact distances from `P`, the right-hand side of the TOA system is `A P`. -/
theorem toa_b_true_distances (positions : Fin 4 → Fin 3 → ℝ) (P : Fin 3 → ℝ) (i : Fin 3) :
    toa_b (fun k => euclid_dist Real.sqrt P (positions k)) positions i
      = toa_A positions i 0 * P 0 + toa_A positions i 1 * P 1 + toa_A positions i 2 * P 2 := by
  simp only [toa_b, toa_A, euclid_dist_mul_self]
  simp
  ring

theorem sqrt6_pos : 0 < Real.sqrt 6 := Real.sqrt_pos.mpr (by norm_num)

theorem sqrt6_sq : Real.sqrt 6 * Real.sqrt 6 = 6 := Real.mul_self_sqrt (by norm_num)

theorem sqrt38_eq : Real.sqrt (3 / 8) = Real.sqrt 6 / 4 := by
  rw [Real.sqrt_eq_iff_mul_self_eq (by norm_num) (by positivity)]
  nlinarith [sqrt6_sq]

/-- The anchors of `calculate_positions`, with the two square roots named. -/
theorem anchors_eq (sqrt : F → F) (a : F) :
    anchors sqrt a =
      ![![0, a / sqrt 6, 0],
        ![-a / 2, -a / (2 * sqrt 6), 0],
        ![a / 2, -a / (2 * sqrt 6), 0],
        ![0, 0, a * sqrt (3 / 8)]] := rfl

/-- The determinant of the TOA matrix of the computed anchors. -/
theorem det3_anchors (a : ℝ) : det3 (toa_A (anchors Real.sqrt a)) = 3 * a ^ 3 := by
  have h6 := sqrt6_pos
  rw [anchors_eq, sqrt38_eq]
  generalize Real.sqrt 6 = s at h6 ⊢
  simp [det3, toa_A]
  field_simp
  ring

/-! ## TOA solve: round trip and singular fallback -/

/-- C1: for every anchor set whose TOA matrix has `|det A| >= 1e-4` and every point `P`,
`solve_position_toa` applied to the four exact Euclidean distances from `P` to the anchors
returns `P` (floats modelled as real numbers). -/
theorem solve_position_toa_round_trip (positions : Fin 4 → Fin 3 → ℝ) (P : Fin 3 → ℝ)
    (hdet : 0.0001 ≤ |det3 (toa_A positions)|) :
    solve_position_toa (fun k => euclid_dist Real.sqrt P (positions k)) positions = P :=
  solve_linear_system_mul _ P _ hdet (toa_b_true_distances positions P)

/-- C1, at the anchors of edge length 1000 and the source `(0, 0, 500)`. -/
theorem solve_position_toa_round_trip_witness :
    0.0001 ≤ |det3 (toa_A (anchors Real.sqrt 1000))| ∧
      solve_position_toa
        (fun k => euclid_dist Real.sqrt ![0, 0, 500] (anchors Real.sqrt 1000 k))
        (anchors Real.sqrt 1000) = ![0, 0, 500] :=
  ⟨by rw [det3_anchors]; norm_num,
   solve_position_toa_round_trip (anchors Real.sqrt 1000) ![0, 0, 500]
     (by rw [det3_anchors]; norm_num)⟩

/-- C5, refuted at the anchors `(0,0,0)`, `(a/2,0,0)`, `(0,1/2,0)`, `(0,0,1/2)` with
`a = 13743895 / 2 ^ 37` and the distances `(1, 1, 1, 1)`: the determinant of the TOA matrix is
`a`, which is below `1e-4`, and `solve_position_toa` returns `(a/4, 1/4, 1/4)`, not
`(0, 0, 0)`. -/
theorem solve_position_toa_below_1e4_not_zero :
    |det3 (toa_A (![![0, 0, 0], ![13743895 / 274877906944, 0, 0], ![0, 1 / 2, 0],
        ![0, 0, 1 / 2]] : Fin 4 → Fin 3 → ℚ))| < 0.0001 ∧
      solve_position_toa ![1, 1, 1, 1]
        (![![0, 0, 0], ![13743895 / 274877906944, 0, 0], ![0, 1 / 2, 0],
          ![0, 0, 1 / 2]] : Fin 4 → Fin 3 → ℚ)
        = ![13743895 / 549755813888, 1 / 4, 1 / 4] ∧
      solve_position_toa ![1, 1, 1, 1]
        (![![0, 0, 0], ![13743895 / 274877906944, 0, 0], ![0, 1 / 2, 0],
          ![0, 0, 1 / 2]] : Fin 4 → Fin 3 → ℚ)
        ≠ ![0, 0, 0] := by
  have hdet : det3 (toa_A (![![0, 0, 0], ![13743895 / 274877906944, 0, 0], ![0, 1 / 2, 0],
      ![0, 0, 1 / 2]] : Fin 4 → Fin 3 → ℚ)) = 13743895 / 137438953472 := by
    simp [det3, toa_A, Matrix.vecHead, Matrix.vecTail]
    norm_num
  have hres : solve_position_toa ![1, 1, 1, 1]
      (![![0, 0, 0], ![13743895 / 274877906944, 0, 0], ![0, 1 / 2, 0],
        ![0, 0, 1 / 2]] : Fin 4 → Fin 3 → ℚ)
      = ![13743895 / 549755813888, 1 / 4, 1 / 4] := by
    apply solve_linear_system_mul_of_thr
    · rw [hdet, abs_of_pos (by norm_num)]
      exact le_refl _
    · intro i
      fin_cases i
      · simp [toa_A, toa_b, Matrix.vecHead, Matrix.vecTail]
        norm_num
      · simp [toa_A, toa_b, Matrix.vecHead, Matrix.vecTail]
        norm_num
      · simp [toa_A, toa_b, Matrix.vecHead, Matrix.vecTail]
        norm_num
  refine ⟨?_, hres, ?_⟩
  · rw [hdet, abs_of_pos (by norm_num)]
    norm_num
  · rw [hres]
    intro h
    have h1 := congrFun h 1
    norm_num at h1

/-- C5, as amended: whenever `|det A|` is below the constant `0.0001f` of the source, that is
below `13743895 / 2 ^ 37`, `solve_position_toa` returns exactly `(0, 0, 0)`, whatever the
distances are; in particular it does for every anchor set with `det A = 0`. -/
theorem solve_position_toa_singular (distances : Fin 4 → F) (positions : Fin 4 → Fin 3 → F) :
    (|det3 (toa_A positions)| < float_0_0001 →
        solve_position_toa distances positions = ![0, 0, 0]) ∧
      (|det3 (toa_A positions)| < 13743895 / 2 ^ 37 →
        solve_position_toa distances positions = ![0, 0, 0]) ∧
      (det3 (toa_A positions) = 0 → solve_position_toa distances positions = ![0, 0, 0]) := by
  have h37 : (13743895 / 2 ^ 37 : F) = float_0_0001 := by
    unfold float_0_0001
    norm_num
  refine ⟨fun h => solve_linear_system_singular _ _ h, fun h => ?_, fun h => ?_⟩
  · apply solve_linear_system_singular
    rw [← h37]
    exact h
  · apply solve_linear_system_singular
    rw [h, abs_zero]
    exact thr_pos

/-- C5 as amended, at the four coplanar anchors `(0,0,0)`, `(1,0,0)`, `(0,1,0)`, `(1,1,0)`
and the distances `(3, 4, 5, 6)`. -/
theorem solve_position_toa_singular_witness :
    det3 (toa_A (![![0, 0, 0], ![1, 0, 0], ![0, 1, 0], ![1, 1, 0]] : Fin 4 → Fin 3 → ℚ))
        = 0 ∧
      solve_position_toa ![3, 4, 5, 6]
        (![![0, 0, 0], ![1, 0, 0], ![0, 1, 0], ![1, 1, 0]] : Fin 4 → Fin 3 → ℚ)
        = ![0, 0, 0] :=
  have h : det3 (toa_A (![![0, 0, 0], ![1, 0, 0], ![0, 1, 0], ![1, 1, 0]] :
      Fin 4 → Fin 3 → ℚ)) = 0 := by
    simp [det3, toa_A, Matrix.vecHead, Matrix.vecTail]
  ⟨h, (solve_position_toa_singular _ _).2.2 h⟩

/-! ## Geometry of the computed anchors -/

/-- C10: for every positive edge length `a` the TOA matrix of the anchors written by
`calculate_positions` has determinant `3 * a^3`, which is not zero: the anchors are not
coplanar. -/
theorem anchors_non_coplanar (a : ℝ) (ha : 0 < a) :
    det3 (toa_A (anchors Real.sqrt a)) = 3 * a ^ 3 ∧
      det3 (toa_A (anchors Real.sqrt a)) ≠ 0 := by
  rw [det3_anchors]
  exact ⟨rfl, by positivity⟩

/-- C10, at edge length 1000. -/
theorem anchors_non_coplanar_witness :
    (0 : ℝ) < 1000 ∧ det3 (toa_A (anchors Real.sqrt 1000)) = 3 * (1000 : ℝ) ^ 3 ∧
      det3 (toa_A (anchors Real.sqrt 1000)) ≠ 0 :=
  ⟨by norm_num, anchors_non_coplanar 1000 (by norm_num)⟩

/-- C2: at edge length 1000 the anchors 0 and 1 written by `calculate_positions` are
`sqrt 625000` (about 790.57) apart, not 1000: the six pairwise distances are not all equal
to the edge length. -/
theorem anchors_edge_1000_not_equidistant :
    euclid_dist Real.sqrt (anchors Real.sqrt 1000 0) (anchors Real.sqrt 1000 1)
        = Real.sqrt 625000 ∧
      euclid_dist Real.sqrt (anchors Real.sqrt 1000 0) (anchors Real.sqrt 1000 1) ≠ 1000 := by
  have h6 := sqrt6_pos
  have h66 := sqrt6_sq
  have hd : euclid_dist Real.sqrt (anchors Real.sqrt 1000 0) (anchors Real.sqrt 1000 1)
      = Real.sqrt 625000 := by
    rw [anchors_eq]
    unfold euclid_dist
    congr 1
    simp
    field_simp
    nlinarith
  refine ⟨hd, ?_⟩
  rw [hd]
  intro h
  have h2 := Real.sqrt_eq_iff_mul_self_eq (by norm_num : (0 : ℝ) ≤ 625000)
    (by norm_num : (0 : ℝ) ≤ 1000)
  rw [h2] at h
  norm_num at h

/-! ## The TDOA search -/

theorem tdoa_error_eq (sqrt : F → F) (result : Fin 3 → F) (positions : Fin 4 → Fin 3 → F)
    (real_distances : Fin 4 → F) :
    tdoa_error sqrt result positions real_distances
      = ∑ k : Fin 4, |euclid_dist sqrt result (positions k) - real_distances k| := by
  have h3 : (Fin.succ 2 : Fin 4) = 3 := rfl
  simp [tdoa_error, euclid_dist, Fin.sum_univ_four, List.finRange_succ_eq_map, h3]

/-- One turn of the search loop, in the terms of the claims. -/
theorem tdoa_search_unfold [FloorRing F] (sqrt : F → F) (distances : Fin 4 → F)
    (positions : Fin 4 → Fin 3 → F) (r1 : F) (result : Fin 3 → F) (solves : Nat) :
    tdoa_search sqrt (fun i => distances i.succ - distances 0) positions r1 result solves =
      if r1 < 10000 then
        if tdoa_err sqrt distances positions r1 < 1 then
          (tdoa_cand distances positions r1, solves + 1)
        else
          tdoa_search sqrt (fun i => distances i.succ - distances 0) positions (r1 + 10)
            (tdoa_cand distances positions r1) (solves + 1)
      else
        (result, solves) := by
  have h1 : (1.0 : F) = 1 := by norm_num
  have hrd : (![r1, r1 + (distances (Fin.succ 0) - distances 0),
      r1 + (distances (Fin.succ 1) - distances 0),
      r1 + (distances (Fin.succ 2) - distances 0)] : Fin 4 → F)
      = tdoa_cand_distances distances r1 := rfl
  rw [tdoa_search]
  simp only [tdoa_error_eq, hrd, h1, tdoa_err, tdoa_cand]

theorem tdoa_grid_succ (n : Nat) : (tdoa_grid n : F) + 10 = tdoa_grid (n + 1) := by
  simp only [tdoa_grid, Nat.cast_add, Nat.cast_one]
  ring

theorem tdoa_grid_lt (n : Nat) : (tdoa_grid n : F) < 10000 ↔ n < 990 := by
  unfold tdoa_grid
  constructor
  · intro h
    by_contra hn
    have h990 : (990 : F) ≤ (n : F) := by exact_mod_cast not_lt.mp hn
    linarith
  · intro h
    have h989 : (n : F) ≤ (989 : F) := by exact_mod_cast Nat.lt_succ_iff.mp h
    linarith

/-- The search entered at the grid value number `n`, with `m` grid values left: either it
accepts at the first grid value from `n` on whose error is below 1, or no such value is left
and it ends with the candidate of the last grid value (or with `result` untouched when no grid
value is left at all). -/
theorem tdoa_search_grid [FloorRing F] (sqrt : F → F) (distances : Fin 4 → F)
    (positions : Fin 4 → Fin 3 → F) :
    ∀ (m n : Nat) (result : Fin 3 → F) (solves : Nat), n + m = 990 →
      (∃ k, n ≤ k ∧ k < 990 ∧ tdoa_err sqrt distances positions (tdoa_grid k) < 1 ∧
          (∀ j, n ≤ j → j < k → ¬ tdoa_err sqrt distances positions (tdoa_grid j) < 1) ∧
          tdoa_search sqrt (fun i => distances i.succ - distances 0) positions (tdoa_grid n)
              result solves
            = (tdoa_cand distances positions (tdoa_grid k), solves + (k - n) + 1)) ∨
        ((∀ j, n ≤ j → j < 990 → ¬ tdoa_err sqrt distances positions (tdoa_grid j) < 1) ∧
          tdoa_search sqrt (fun i => distances i.succ - distances 0) positions (tdoa_grid n)
              result solves
            = (if n = 990 then result else tdoa_cand distances positions (tdoa_grid 989),
                solves + m)) := by
  intro m
  induction m with
  | zero =>
    intro n result solves hn
    have h990 : n = 990 := by omega
    subst h990
    right
    refine ⟨fun j h1 h2 => absurd h1 (not_le.mpr h2), ?_⟩
    rw [tdoa_search_unfold, if_neg (by rw [tdoa_grid_lt]; exact lt_irrefl _)]
    simp
  | succ m ih =>
    intro n result solves hn
    have hlt : n < 990 := by omega
    have hr : (tdoa_grid n : F) < 10000 := (tdoa_grid_lt n).mpr hlt
    by_cases hacc : tdoa_err sqrt distances positions (tdoa_grid n) < 1
    · left
      refine ⟨n, le_refl _, hlt, hacc, fun j h1 h2 => absurd h1 (not_le.mpr h2), ?_⟩
      rw [tdoa_search_unfold, if_pos hr, if_pos hacc]
      simp
    · have hstep : tdoa_search sqrt (fun i => distances i.succ - distances 0) positions
            (tdoa_grid n) result solves
          = tdoa_search sqrt (fun i => distances i.succ - distances 0) positions
              (tdoa_grid (n + 1)) (tdoa_cand distances positions (tdoa_grid n))
              (solves + 1) := by
        rw [tdoa_search_unfold, if_pos hr, if_neg hacc, tdoa_grid_succ]
      rw [hstep]
      rcases ih (n + 1) (tdoa_cand distances positions (tdoa_grid n)) (solves + 1)
          (by omega) with ⟨k, hk1, hk2, hk3, hk4, hk5⟩ | ⟨hall, hres⟩
      · left
        refine ⟨k, by omega, hk2, hk3, ?_, ?_⟩
        · intro j h1 h2
          rcases Nat.eq_or_lt_of_le h1 with h | h
          · rw [← h]
            exact hacc
          · exact hk4 j h h2
        · rw [hk5]
          congr 1
          omega
      · right
        refine ⟨?_, ?_⟩
        · intro j h1 h2
          rcases Nat.eq_or_lt_of_le h1 with h | h
          · rw [← h]
            exact hacc
          · exact hall j h h2
        · rw [hres, if_neg (by omega : ¬ n = 990)]
          by_cases h989 : n + 1 = 990
          · have h' : n = 989 := by omega
            rw [if_pos h989, h']
            congr 1
            omega
          · rw [if_neg h989]
            congr 1
            omega

theorem tdoa_grid_zero : (tdoa_grid 0 : F) = 100 := by
  simp [tdoa_grid]

theorem tdoa_grid_last : (tdoa_grid 989 : F) = 9990 := by
  simp only [tdoa_grid]
  norm_num

/-- The whole run of `solve_position_tdoa`, in the terms of the claims. -/
theorem solve_position_tdoa_run_spec [FloorRing F] (sqrt : F → F) (distances : Fin 4 → F)
    (positions : Fin 4 → Fin 3 → F) (result : Fin 3 → F) :
    (∃ k, k < 990 ∧ tdoa_err sqrt distances positions (tdoa_grid k) < 1 ∧
        (∀ j, j < k → ¬ tdoa_err sqrt distances positions (tdoa_grid j) < 1) ∧
        solve_position_tdoa_run sqrt distances positions result
          = (tdoa_cand distances positions (tdoa_grid k), k + 1)) ∨
      ((∀ j, j < 990 → ¬ tdoa_err sqrt distances positions (tdoa_grid j) < 1) ∧
        solve_position_tdoa_run sqrt distances positions result
          = (tdoa_cand distances positions (tdoa_grid 989), 990)) := by
  unfold solve_position_tdoa_run
  simp only []
  rw [← tdoa_grid_zero]
  rcases tdoa_search_grid sqrt distances positions 990 0 result 0 (by omega) with
    ⟨k, _, hk2, hk3, hk4, hk5⟩ | ⟨hall, hres⟩
  · left
    refine ⟨k, hk2, hk3, fun j hj => hk4 j (Nat.zero_le _) hj, ?_⟩
    rw [hk5]
    congr 1
    omega
  · right
    refine ⟨fun j hj => hall j (Nat.zero_le _) hj, ?_⟩
    rw [hres]
    simp

/-- C4: `solve_position_tdoa` returns `cand(r)` at the smallest grid value
`r = 100 + 10 k`, `k < 990`, with `err(r) < 1`; when no grid value has `err(r) < 1` it returns
the candidate of the last grid value, `cand(9990)`. -/
theorem solve_position_tdoa_search_semantics [FloorRing F] (sqrt : F → F)
    (distances : Fin 4 → F) (positions : Fin 4 → Fin 3 → F) (result : Fin 3 → F) :
    (∃ k, k < 990 ∧ tdoa_err sqrt distances positions (tdoa_grid k) < 1 ∧
        (∀ j, j < k → ¬ tdoa_err sqrt distances positions (tdoa_grid j) < 1) ∧
        solve_position_tdoa sqrt distances positions result
          = tdoa_cand distances positions (tdoa_grid k)) ∨
      ((∀ k, k < 990 → ¬ tdoa_err sqrt distances positions (tdoa_grid k) < 1) ∧
        solve_position_tdoa sqrt distances positions result
          = tdoa_cand distances positions 9990) := by
  unfold solve_position_tdoa
  rcases solve_position_tdoa_run_spec sqrt distances positions result with
    ⟨k, hk1, hk2, hk3, hk4⟩ | ⟨hall, hres⟩
  · left
    exact ⟨k, hk1, hk2, hk3, by rw [hk4]⟩
  · right
    exact ⟨hall, by rw [hres, tdoa_grid_last]⟩

/-- C9: the search loop of `solve_position_tdoa` ends (the run is a total function) and makes
at most 990 calls of `solve_position_toa`, hence at most 991. -/
theorem solve_position_tdoa_bounded [FloorRing F] (sqrt : F → F) (distances : Fin 4 → F)
    (positions : Fin 4 → Fin 3 → F) (result : Fin 3 → F) :
    (solve_position_tdoa_run sqrt distances positions result).2 ≤ 990 ∧
      (solve_position_tdoa_run sqrt distances positions result).2 ≤ 991 := by
  rcases solve_position_tdoa_run_spec sqrt distances positions result with
    ⟨k, hk1, _, _, hk4⟩ | ⟨_, hres⟩
  · rw [hk4]
    constructor <;> simp <;> omega
  · rw [hres]
    constructor <;> simp

/-- C6: `solve_position_tdoa` uses only the differences to the first input: adding a constant
`c` to all four inputs does not change the result, and any two inputs with the same three
differences `d_i - d_0` give the same result. -/
theorem solve_position_tdoa_shift [FloorRing F] (sqrt : F → F) (distances : Fin 4 → F)
    (positions : Fin 4 → Fin 3 → F) (result : Fin 3 → F) :
    (∀ c : F, solve_position_tdoa sqrt (fun k => distances k + c) positions result
        = solve_position_tdoa sqrt distances positions result) ∧
      (∀ distances2 : Fin 4 → F,
        (∀ i : Fin 3, distances2 i.succ - distances2 0 = distances i.succ - distances 0) →
        solve_position_tdoa sqrt distances2 positions result
          = solve_position_tdoa sqrt distances positions result) := by
  have hgen : ∀ distances2 : Fin 4 → F,
      (∀ i : Fin 3, distances2 i.succ - distances2 0 = distances i.succ - distances 0) →
      solve_position_tdoa sqrt distances2 positions result
        = solve_position_tdoa sqrt distances positions result := by
    intro distances2 h
    unfold solve_position_tdoa solve_position_tdoa_run
    have ht : (fun i : Fin 3 => distances2 i.succ - distances2 0)
        = (fun i : Fin 3 => distances i.succ - distances 0) := funext h
    simp only [ht]
  refine ⟨fun c => hgen _ (fun i => ?_), hgen⟩
  ring

/-- C6, at the anchors of edge length 1000: the inputs `(6, 7, 8, 9)` and `(1, 2, 3, 4)`,
which differ by the constant 5, give the same result. -/
theorem solve_position_tdoa_shift_witness :
    solve_position_tdoa Real.sqrt (fun k => (![1, 2, 3, 4] : Fin 4 → ℝ) k + 5)
        (anchors Real.sqrt 1000) ![0, 0, 0]
      = solve_position_tdoa Real.sqrt ![1, 2, 3, 4] (anchors Real.sqrt 1000) ![0, 0, 0] ∧
    solve_position_tdoa Real.sqrt ![6, 7, 8, 9] (anchors Real.sqrt 1000) ![0, 0, 0]
      = solve_position_tdoa Real.sqrt ![1, 2, 3, 4] (anchors Real.sqrt 1000) ![0, 0, 0] :=
  ⟨(solve_position_tdoa_shift Real.sqrt ![1, 2, 3, 4] (anchors Real.sqrt 1000) ![0, 0, 0]).1 5,
   (solve_position_tdoa_shift Real.sqrt ![1, 2, 3, 4] (anchors Real.sqrt 1000) ![0, 0, 0]).2
     ![6, 7, 8, 9] (by
       intro i
       fin_cases i <;> simp <;> norm_num)⟩

/-! ## The methods of the object -/

/-- C7: `tetra2pos_edge f` with `f <= 0` leaves the whole object state (edge length, anchor
positions, debug flag) as it was; with `f > 0` it sets the edge length to `f` and the anchor
positions to those `calculate_positions` derives from `f`, the debug flag unchanged. -/
theorem tetra2pos_edge_atomic (sqrt : F → F) (x : t_tetra2pos F) (f : F) :
    (f ≤ 0 → (tetra2pos_edge sqrt x f).1 = x) ∧
      (0 < f → (tetra2pos_edge sqrt x f).1
        = { edge_length := f, positions := anchors sqrt f, debug := x.debug }) := by
  constructor
  · intro hf
    unfold tetra2pos_edge
    rw [if_pos hf]
  · intro hf
    unfold tetra2pos_edge
    rw [if_neg (not_le.mpr hf)]
    simp only []
    split_ifs <;> rfl

/-- C7, at the object created with edge length 1000: `edge -5` changes nothing, `edge 2`
sets the edge length and the anchors. -/
theorem tetra2pos_edge_atomic_witness :
    (tetra2pos_edge Real.sqrt (tetra2pos_new Real.sqrt 1000) (-5)).1
        = tetra2pos_new Real.sqrt 1000 ∧
      (tetra2pos_edge Real.sqrt (tetra2pos_new Real.sqrt 1000) 2).1
        = { edge_length := 2, positions := anchors Real.sqrt 2,
            debug := (tetra2pos_new Real.sqrt 1000).debug } :=
  ⟨(tetra2pos_edge_atomic Real.sqrt (tetra2pos_new Real.sqrt 1000) (-5)).1 (by norm_num),
   (tetra2pos_edge_atomic Real.sqrt (tetra2pos_new Real.sqrt 1000) 2).2 (by norm_num)⟩

theorem get_four {A B : Type} (g : A → B) (a0 a1 a2 a3 : A) :
    (fun i : Fin 4 => g ([a0, a1, a2, a3].get ⟨i.val, by simp⟩))
      = ![g a0, g a1, g a2, g a3] := by
  funext i
  fin_cases i <;> rfl

theorem tetra2pos_list_four {A : Type} (g : A → F) (x : t_tetra2pos F) (a0 a1 a2 a3 : A) :
    (tetra2pos_list g x [a0, a1, a2, a3]).1 = x ∧
      emitted_positions (tetra2pos_list g x [a0, a1, a2, a3]).2
        = [solve_position_toa ![g a0, g a1, g a2, g a3] x.positions] := by
  unfold tetra2pos_list
  rw [dif_neg (by simp)]
  simp only [get_four, vec3_eta]
  split_ifs <;> exact ⟨rfl, rfl⟩

theorem tetra2pos_relative_four [FloorRing F] {A : Type} (g : A → F) (sqrt : F → F)
    (x : t_tetra2pos F) (a0 a1 a2 a3 : A) (position : Fin 3 → F) :
    (tetra2pos_relative g sqrt x [a0, a1, a2, a3] position).1 = x ∧
      emitted_positions (tetra2pos_relative g sqrt x [a0, a1, a2, a3] position).2
        = [solve_position_tdoa sqrt ![g a0, g a1, g a2, g a3] x.positions position] := by
  unfold tetra2pos_relative
  rw [dif_neg (by simp)]
  simp only [get_four, vec3_eta]
  split_ifs <;> exact ⟨rfl, rfl⟩

theorem length_eq_four {A : Type} (argv : List A) (h : argv.length = 4) :
    ∃ a0 a1 a2 a3, argv = [a0, a1, a2, a3] := by
  rcases argv with _ | ⟨a0, _ | ⟨a1, _ | ⟨a2, _ | ⟨a3, _ | ⟨a4, t⟩⟩⟩⟩⟩
  all_goals first
    | exact ⟨a0, a1, a2, a3, rfl⟩
    | (simp at h)

/-- C8: `tetra2pos_list` and `tetra2pos_relative` never change the object state; they send a
position to the outlet if and only if exactly 4 values are supplied; with any other count their
only effect is the error report; with exactly 4 values the position sent is the result of
`solve_position_toa`, respectively `solve_position_tdoa`, on those values and the current
anchors. -/
theorem tetra2pos_arity [FloorRing F] {A : Type} (atom_getfloat : A → F) (sqrt : F → F)
    (x : t_tetra2pos F) (argv : List A) (position : Fin 3 → F) :
    ((tetra2pos_list atom_getfloat x argv).1 = x ∧
        (tetra2pos_relative atom_getfloat sqrt x argv position).1 = x) ∧
      ((emitted_positions (tetra2pos_list atom_getfloat x argv).2 ≠ [] ↔ argv.length = 4) ∧
        (emitted_positions (tetra2pos_relative atom_getfloat sqrt x argv position).2 ≠ []
          ↔ argv.length = 4)) ∧
      (argv.length ≠ 4 →
        (tetra2pos_list atom_getfloat x argv).2
            = [Effect.pd_error "tetra2pos: expect 4 absolute distances (mm)"] ∧
          (tetra2pos_relative atom_getfloat sqrt x argv position).2
            = [Effect.pd_error "tetra2pos: relative message expects 4 distances (mm)"]) ∧
      (∀ a0 a1 a2 a3, argv = [a0, a1, a2, a3] →
        emitted_positions (tetra2pos_list atom_getfloat x argv).2
            = [solve_position_toa
                ![atom_getfloat a0, atom_getfloat a1, atom_getfloat a2, atom_getfloat a3]
                x.positions] ∧
          emitted_positions (tetra2pos_relative atom_getfloat sqrt x argv position).2
            = [solve_position_tdoa sqrt
                ![atom_getfloat a0, atom_getfloat a1, atom_getfloat a2, atom_getfloat a3]
                x.positions position]) := by
  have hfour : ∀ a0 a1 a2 a3, argv = [a0, a1, a2, a3] →
      emitted_positions (tetra2pos_list atom_getfloat x argv).2
          = [solve_position_toa
              ![atom_getfloat a0, atom_getfloat a1, atom_getfloat a2, atom_getfloat a3]
              x.positions] ∧
        emitted_positions (tetra2pos_relative atom_getfloat sqrt x argv position).2
          = [solve_position_tdoa sqrt
              ![atom_getfloat a0, atom_getfloat a1, atom_getfloat a2, atom_getfloat a3]
              x.positions position] := by
    intro a0 a1 a2 a3 h
    subst h
    exact ⟨(tetra2pos_list_four atom_getfloat x a0 a1 a2 a3).2,
      (tetra2pos_relative_four atom_getfloat sqrt x a0 a1 a2 a3 position).2⟩
  by_cases hlen : argv.length = 4
  · obtain ⟨a0, a1, a2, a3, h⟩ := length_eq_four argv hlen
    have h4 := hfour a0 a1 a2 a3 h
    refine ⟨?_, ⟨?_, ?_⟩, fun hne => absurd hlen hne, hfour⟩
    · subst h
      exact ⟨(tetra2pos_list_four atom_getfloat x a0 a1 a2 a3).1,
        (tetra2pos_relative_four atom_getfloat sqrt x a0 a1 a2 a3 position).1⟩
    · rw [h4.1]
      simp [hlen]
    · rw [h4.2]
      simp [hlen]
  · have hl : tetra2pos_list atom_getfloat x argv
        = (x, [Effect.pd_error "tetra2pos: expect 4 absolute distances (mm)"]) := by
      unfold tetra2pos_list
      rw [dif_pos hlen]
    have hr : tetra2pos_relative atom_getfloat sqrt x argv position
        = (x, [Effect.pd_error "tetra2pos: relative message expects 4 distances (mm)"]) := by
      unfold tetra2pos_relative
      rw [dif_pos hlen]
    refine ⟨?_, ⟨?_, ?_⟩, fun _ => ?_, ?_⟩
    · rw [hl, hr]
      exact ⟨rfl, rfl⟩
    · rw [hl]
      simp [emitted_positions, hlen]
    · rw [hr]
      simp [emitted_positions, hlen]
    · rw [hl, hr]
      exact ⟨rfl, rfl⟩
    · intro a0 a1 a2 a3 h
      rw [h] at hlen
      simp at hlen

/-- C8, at the object created with edge length 1000, the atoms being numbers: three values
give only the error report, four values give the TOA, respectively TDOA, solve. -/
theorem tetra2pos_arity_witness :
    ((tetra2pos_list id (tetra2pos_new Real.sqrt 1000) [3, 4, 5]).2
          = [Effect.pd_error "tetra2pos: expect 4 absolute distances (mm)"] ∧
        (tetra2pos_relative id Real.sqrt (tetra2pos_new Real.sqrt 1000) [3, 4, 5] ![0, 0, 0]).2
          = [Effect.pd_error "tetra2pos: relative message expects 4 distances (mm)"]) ∧
      (emitted_positions (tetra2pos_list id (tetra2pos_new Real.sqrt 1000) [3, 4, 5, 6]).2
          = [solve_position_toa ![id 3, id 4, id 5, id 6]
              (tetra2pos_new Real.sqrt 1000).positions] ∧
        emitted_positions
            (tetra2pos_relative id Real.sqrt (tetra2pos_new Real.sqrt 1000) [3, 4, 5, 6]
              ![0, 0, 0]).2
          = [solve_position_tdoa Real.sqrt ![id 3, id 4, id 5, id 6]
              (tetra2pos_new Real.sqrt 1000).positions ![0, 0, 0]]) :=
  ⟨(tetra2pos_arity id Real.sqrt (tetra2pos_new Real.sqrt 1000) [3, 4, 5]
      ![0, 0, 0]).2.2.1 (by decide),
   (tetra2pos_arity id Real.sqrt (tetra2pos_new Real.sqrt 1000) [3, 4, 5, 6]
      ![0, 0, 0]).2.2.2 3 4 5 6 rfl⟩

/-! ## TDOA accuracy -/

theorem vec4_ext {α : Type} {u v : Fin 4 → α} (h0 : u 0 = v 0) (h1 : u 1 = v 1)
    (h2 : u 2 = v 2) (h3 : u 3 = v 3) : u = v := by
  funext i
  fin_cases i
  · exact h0
  · exact h1
  · exact h2
  · exact h3

/-- At the true reference distance the candidate distances are the true distances. -/
theorem tdoa_cand_distances_true (d D : Fin 4 → F)
    (hd : ∀ i : Fin 3, d i.succ - d 0 = D i.succ - D 0) :
    tdoa_cand_distances d (D 0) = D := by
  have h1 : d 1 - d 0 = D 1 - D 0 := hd 0
  have h2 : d 2 - d 0 = D 2 - D 0 := hd 1
  have h3 : d 3 - d 0 = D 3 - D 0 := hd 2
  apply vec4_ext
  · rfl
  · show D 0 + (d 1 - d 0) = D 1
    rw [h1]
    ring
  · show D 0 + (d 2 - d 0) = D 2
    rw [h2]
    ring
  · show D 0 + (d 3 - d 0) = D 3
    rw [h3]
    ring

/-- At the true reference distance the candidate is the source and its total error is 0. -/
theorem tdoa_cand_true (positions : Fin 4 → Fin 3 → ℝ) (P : Fin 3 → ℝ) (d : Fin 4 → ℝ)
    (hdet : 0.0001 ≤ |det3 (toa_A positions)|)
    (hd : ∀ i : Fin 3, d i.succ - d 0
      = euclid_dist Real.sqrt P (positions i.succ) - euclid_dist Real.sqrt P (positions 0)) :
    tdoa_cand d positions (euclid_dist Real.sqrt P (positions 0)) = P ∧
      tdoa_err Real.sqrt d positions (euclid_dist Real.sqrt P (positions 0)) = 0 := by
  have hD := tdoa_cand_distances_true d (fun k => euclid_dist Real.sqrt P (positions k)) hd
  simp only [] at hD
  have hc : tdoa_cand d positions (euclid_dist Real.sqrt P (positions 0)) = P := by
    unfold tdoa_cand
    rw [hD]
    exact solve_linear_system_mul _ P _ hdet (toa_b_true_distances positions P)
  refine ⟨hc, ?_⟩
  unfold tdoa_err
  rw [hc, hD]
  simp

/-- Cramer's rule solves the system when the singular branch is not taken. -/
theorem solve_linear_system_sound_of_thr (A : Fin 3 → Fin 3 → F) (b : Fin 3 → F)
    (h : float_0_0001 ≤ |det3 A|) (i : Fin 3) :
    A i 0 * solve_linear_system A b 0 + A i 1 * solve_linear_system A b 1
      + A i 2 * solve_linear_system A b 2 = b i := by
  have hd : det3 A ≠ 0 := by
    intro h0
    rw [h0, abs_zero] at h
    exact absurd h (not_le.mpr thr_pos)
  unfold solve_linear_system
  simp only [not_lt.mpr h, if_false]
  fin_cases i
  · simp [det3] at hd ⊢
    field_simp
    ring
  · simp [det3] at hd ⊢
    field_simp
    ring
  · simp [det3] at hd ⊢
    field_simp
    ring

/-- The same for a determinant of absolute value at least `1 / 10000`. -/
theorem solve_linear_system_sound (A : Fin 3 → Fin 3 → F) (b : Fin 3 → F)
    (h : 0.0001 ≤ |det3 A|) (i : Fin 3) :
    A i 0 * solve_linear_system A b 0 + A i 1 * solve_linear_system A b 1
      + A i 2 * solve_linear_system A b 2 = b i :=
  solve_linear_system_sound_of_thr A b (thr_le_of_le h) i

/-- The third Cramer equation at the anchors of edge length 1000, the second coordinate
eliminated with the first two equations. -/
theorem scenario_z (r : ℝ) (X : Fin 3 → ℝ) (d : Fin 4 → ℝ)
    (hX : X = tdoa_cand d (anchors Real.sqrt 1000) r) :
    500 * Real.sqrt 6 * X 2 =
      (r * r - (r + (d 3 - d 0)) * (r + (d 3 - d 0)) + 375000 - 500000 / 3)
      - (1 / 3) * ((r * r - (r + (d 1 - d 0)) * (r + (d 1 - d 0)) + 125000)
          + (r * r - (r + (d 2 - d 0)) * (r + (d 2 - d 0)) + 125000)) := by
  have h6 := sqrt6_pos
  have h66 := sqrt6_sq
  have hdet : 0.0001 ≤ |det3 (toa_A (anchors Real.sqrt 1000))| := by
    rw [det3_anchors]; norm_num
  have e0 := solve_linear_system_sound (toa_A (anchors Real.sqrt 1000))
    (toa_b (tdoa_cand_distances d r) (anchors Real.sqrt 1000)) hdet 0
  have e1 := solve_linear_system_sound (toa_A (anchors Real.sqrt 1000))
    (toa_b (tdoa_cand_distances d r) (anchors Real.sqrt 1000)) hdet 1
  have e2 := solve_linear_system_sound (toa_A (anchors Real.sqrt 1000))
    (toa_b (tdoa_cand_distances d r) (anchors Real.sqrt 1000)) hdet 2
  have hX' : solve_linear_system (toa_A (anchors Real.sqrt 1000))
    (toa_b (tdoa_cand_distances d r) (anchors Real.sqrt 1000)) = X := by rw [hX]; rfl
  rw [hX'] at e0 e1 e2
  rw [anchors_eq, sqrt38_eq] at e0 e1 e2
  generalize Real.sqrt 6 = s at *
  simp [toa_A, toa_b, tdoa_cand_distances] at e0 e1 e2
  have hq2 : 1000 / s * (1000 / s) = 500000 / 3 := by
    field_simp
    nlinarith
  linear_combination e2 - (1 / 3) * (e0 + e1) - (1 / 2) * hq2 + 62500 * h66

/-- The true distances from `(0, 0, 500)` to the anchors of edge length 1000. -/
theorem scenario_true_distances :
    let D : Fin 4 → ℝ := fun k => euclid_dist Real.sqrt ![0, 0, 500] (anchors Real.sqrt 1000 k)
    (0 ≤ D 0 ∧ D 0 * D 0 = 1250000 / 3) ∧ (0 ≤ D 1 ∧ D 1 * D 1 = 1625000 / 3) ∧
      (0 ≤ D 2 ∧ D 2 * D 2 = 1625000 / 3) ∧ D 3 = 250 * Real.sqrt 6 - 500 := by
  intro D
  have h6 := sqrt6_pos
  have h66 := sqrt6_sq
  have hq2 : 1000 / Real.sqrt 6 * (1000 / Real.sqrt 6) = 500000 / 3 := by
    field_simp
    nlinarith
  have hs : (2449 / 1000 : ℝ) < Real.sqrt 6 := by nlinarith
  refine ⟨⟨Real.sqrt_nonneg _, ?_⟩, ⟨Real.sqrt_nonneg _, ?_⟩,
    ⟨Real.sqrt_nonneg _, ?_⟩, ?_⟩
  · show euclid_dist Real.sqrt ![0, 0, 500] (anchors Real.sqrt 1000 0)
      * euclid_dist Real.sqrt ![0, 0, 500] (anchors Real.sqrt 1000 0) = _
    rw [euclid_dist_mul_self, anchors_eq]
    simp
    linarith
  · show euclid_dist Real.sqrt ![0, 0, 500] (anchors Real.sqrt 1000 1)
      * euclid_dist Real.sqrt ![0, 0, 500] (anchors Real.sqrt 1000 1) = _
    rw [euclid_dist_mul_self, anchors_eq]
    simp
    linear_combination (1 / 4) * hq2
  · show euclid_dist Real.sqrt ![0, 0, 500] (anchors Real.sqrt 1000 2)
      * euclid_dist Real.sqrt ![0, 0, 500] (anchors Real.sqrt 1000 2) = _
    rw [euclid_dist_mul_self, anchors_eq]
    simp
    linear_combination (1 / 4) * hq2
  · show euclid_dist Real.sqrt ![0, 0, 500] (anchors Real.sqrt 1000 3) = _
    rw [anchors_eq, sqrt38_eq]
    unfold euclid_dist
    simp
    rw [Real.sqrt_eq_iff_mul_self_eq (mul_self_nonneg _) (by linarith)]
    ring

/-- A positive root of 6 lies between 2.449 and 2.45. -/
theorem sqrt6_bounds (s : ℝ) (h6 : 0 < s) (h66 : s * s = 6) :
    2449 / 1000 < s ∧ s < 2450 / 1000 := by
  constructor
  · by_contra hc
    push_neg at hc
    nlinarith
  · by_contra hc
    push_neg at hc
    nlinarith

/-- The distance from the source to anchor 0 in the scenario lies between 645 and 646. -/
theorem scenario_d0_bounds (D0 : ℝ) (h0n : 0 ≤ D0) (h0 : D0 * D0 = 1250000 / 3) :
    645 < D0 ∧ D0 < 646 := by
  constructor
  · by_contra hc
    push_neg at hc
    nlinarith
  · by_contra hc
    push_neg at hc
    nlinarith

/-- In the scenario anchor 1 (and 2) is not nearer to the source than anchor 0. -/
theorem scenario_d1_bound (D0 D1 : ℝ) (h0n : 0 ≤ D0) (h1n : 0 ≤ D1)
    (h0 : D0 * D0 = 1250000 / 3) (h1 : D1 * D1 = 1625000 / 3) : D0 ≤ D1 := by
  by_contra hc
  push_neg at hc
  nlinarith

/-- A third coordinate `500 + z` with `500 s z = t S`, `S >= 1065`, `s < 2.45` and `t` at least
4 away from 0 is more than 1 away from 500. -/
theorem scenario_far_of_key (s S t z : ℝ) (hs1 : 0 < s) (hs2 : s < 2450 / 1000) (hS : 1065 ≤ S)
    (key : 500 * s * z = t * S) (ht : t < -5 ∨ 4 < t) : 1 < z * z := by
  rcases ht with ht | ht
  · have h1 : t * S ≤ -5 * S := by
      apply mul_le_mul_of_nonneg_right ht.le
      linarith
    have hz : z < -1 := by
      by_contra hc
      push_neg at hc
      have h2 : 0 ≤ s * (z + 1) := mul_nonneg hs1.le (by linarith)
      nlinarith
    nlinarith
  · have h1 : 4 * S ≤ t * S := by
      apply mul_le_mul_of_nonneg_right ht.le
      linarith
    have hz : 1 < z := by
      by_contra hc
      push_neg at hc
      have h2 : 0 ≤ s * (1 - z) := mul_nonneg hs1.le (by linarith)
      nlinarith
    nlinarith

/-- In the scenario every candidate on the grid is more than 1 mm away from the source:
its third coordinate moves with the reference distance, and the true reference distance
`sqrt (1250000 / 3)`, about 645.5, is at least 4 away from every grid value. -/
theorem scenario_cand_far (k : Nat) :
    ¬ euclid_dist Real.sqrt
        (tdoa_cand (fun k => euclid_dist Real.sqrt ![0, 0, 500] (anchors Real.sqrt 1000 k))
          (anchors Real.sqrt 1000) (tdoa_grid k))
        ![0, 0, 500] ≤ 1 := by
  obtain ⟨⟨h0n, h0⟩, ⟨h1n, h1⟩, ⟨h2n, h2⟩, h3⟩ := scenario_true_distances
  have hz := scenario_z (tdoa_grid k) _
    (fun k => euclid_dist Real.sqrt ![0, 0, 500] (anchors Real.sqrt 1000 k)) rfl
  have h6 := sqrt6_pos
  have h66 := sqrt6_sq
  simp only [] at h0n h0 h1n h1 h2n h2 h3 hz
  generalize tdoa_cand (fun k => euclid_dist Real.sqrt ![0, 0, 500] (anchors Real.sqrt 1000 k))
    (anchors Real.sqrt 1000) (tdoa_grid k) = X at hz ⊢
  generalize euclid_dist Real.sqrt ![0, 0, 500] (anchors Real.sqrt 1000 0) = D0 at *
  generalize euclid_dist Real.sqrt ![0, 0, 500] (anchors Real.sqrt 1000 1) = D1 at *
  generalize euclid_dist Real.sqrt ![0, 0, 500] (anchors Real.sqrt 1000 2) = D2 at *
  generalize euclid_dist Real.sqrt ![0, 0, 500] (anchors Real.sqrt 1000 3) = D3 at *
  generalize Real.sqrt 6 = s at *
  have h3sq : D3 * D3 = 625000 - 250000 * s := by
    rw [h3]
    linear_combination 62500 * h66
  have key : 500 * s * (X 2 - 500)
      = (tdoa_grid k - D0) * (2 * (D0 - D3) + (2 / 3) * (D1 + D2 - 2 * D0)) := by
    linear_combination hz - h3sq + (1 / 3) * h0 + (1 / 3) * h1 + (1 / 3) * h2
  obtain ⟨hs1, hs2⟩ := sqrt6_bounds s h6 h66
  obtain ⟨hD0a, hD0b⟩ := scenario_d0_bounds D0 h0n h0
  have hD1 : D0 ≤ D1 := scenario_d1_bound D0 D1 h0n h1n h0 h1
  have hD2 : D0 ≤ D2 := scenario_d1_bound D0 D2 h0n h2n h0 h2
  have hS : 1065 ≤ 2 * (D0 - D3) + (2 / 3) * (D1 + D2 - 2 * D0) := by
    rw [h3]
    linarith
  have ht : tdoa_grid k - D0 < -5 ∨ 4 < tdoa_grid k - D0 := by
    rcases Nat.lt_or_ge k 55 with hk | hk
    · have hk' : (k : ℝ) ≤ 54 := by exact_mod_cast Nat.lt_succ_iff.mp hk
      left
      simp only [tdoa_grid]
      linarith
    · have hk' : (55 : ℝ) ≤ (k : ℝ) := by exact_mod_cast hk
      right
      simp only [tdoa_grid]
      linarith
  have hfar := scenario_far_of_key s _ _ _ h6 hs2 hS key ht
  intro hle
  have hsq := (Real.sqrt_le_left (by norm_num : (0 : ℝ) ≤ 1)).mp hle
  simp at hsq
  nlinarith [mul_self_nonneg (X 0), mul_self_nonneg (X 1)]

/-- C3, at the scenario the claim names: for edge length 1000 and the source `(0, 0, 500)`,
`solve_position_tdoa` applied to the true distances returns a position that is not within
1 mm of the source, where the claim asks for one within 1 mm. -/
theorem solve_position_tdoa_scenario_off :
    ¬ euclid_dist Real.sqrt
        (solve_position_tdoa Real.sqrt
          (fun k => euclid_dist Real.sqrt ![0, 0, 500] (anchors Real.sqrt 1000 k))
          (anchors Real.sqrt 1000) ![0, 0, 0])
        ![0, 0, 500] ≤ 1 := by
  unfold solve_position_tdoa
  rcases solve_position_tdoa_run_spec Real.sqrt
      (fun k => euclid_dist Real.sqrt ![0, 0, 500] (anchors Real.sqrt 1000 k))
      (anchors Real.sqrt 1000) ![0, 0, 0] with ⟨k, _, _, _, hk4⟩ | ⟨_, hres⟩
  · rw [hk4]
    exact scenario_cand_far k
  · rw [hres]
    exact scenario_cand_far 989

/-! ## The zero vector as a sign of the singular fallback -/

theorem vec3_eq_zero_iff {α : Type} [Zero α] (u : Fin 3 → α) :
    u = ![0, 0, 0] ↔ u 0 = 0 ∧ u 1 = 0 ∧ u 2 = 0 := by
  constructor
  · intro h
    rw [h]
    exact ⟨rfl, rfl, rfl⟩
  · intro h
    exact vec3_ext h.1 h.2.1 h.2.2

/-- C11, refuted at the anchors of edge length 1000 and the exact distances from the origin:
the TOA system is not singular and `solve_position_toa` returns `(0, 0, 0)`. -/
theorem solve_position_toa_zero_not_singular :
    0.0001 ≤ |det3 (toa_A (anchors Real.sqrt 1000))| ∧
      solve_position_toa
        (fun k => euclid_dist Real.sqrt ![0, 0, 0] (anchors Real.sqrt 1000 k))
        (anchors Real.sqrt 1000) = ![0, 0, 0] := by
  have hdet : 0.0001 ≤ |det3 (toa_A (anchors Real.sqrt 1000))| := by
    rw [det3_anchors]
    norm_num
  exact ⟨hdet, solve_linear_system_mul _ ![0, 0, 0] _ hdet
    (toa_b_true_distances (anchors Real.sqrt 1000) ![0, 0, 0])⟩

/-- C11, as amended: whenever `|det A| >= 1e-4`, `solve_position_toa` returns `(0, 0, 0)` if
and only if the right-hand side of the TOA system is zero, that is
`d_0^2 - d_i^2 - |P_0|^2 + |P_i|^2 = 0` for `i = 1, 2, 3`. -/
theorem solve_position_toa_zero_iff (distances : Fin 4 → F) (positions : Fin 4 → Fin 3 → F)
    (hdet : 0.0001 ≤ |det3 (toa_A positions)|) :
    solve_position_toa distances positions = ![0, 0, 0] ↔
      ∀ i : Fin 3, toa_b distances positions i = 0 := by
  constructor
  · intro h i
    have hs := solve_linear_system_sound (toa_A positions) (toa_b distances positions) hdet i
    unfold solve_position_toa at h
    rw [h] at hs
    rw [← hs]
    simp
  · intro h
    apply solve_linear_system_mul _ _ _ hdet
    intro i
    rw [h i]
    simp

/-- C11 as amended, at the anchors of edge length 1000: the distances `(0, 0, 0, 0)` have a
non-zero right-hand side, so the result is not `(0, 0, 0)`. -/
theorem solve_position_toa_zero_iff_witness :
    0.0001 ≤ |det3 (toa_A (anchors Real.sqrt 1000))| ∧
      solve_position_toa ![0, 0, 0, 0] (anchors Real.sqrt 1000) ≠ ![0, 0, 0] := by
  have hdet : 0.0001 ≤ |det3 (toa_A (anchors Real.sqrt 1000))| := by
    rw [det3_anchors]
    norm_num
  refine ⟨hdet, fun h => ?_⟩
  have hb := (solve_position_toa_zero_iff ![0, 0, 0, 0] (anchors Real.sqrt 1000) hdet).mp h 2
  have h6 := sqrt6_pos
  have h66 := sqrt6_sq
  rw [anchors_eq, sqrt38_eq] at hb
  simp [toa_b] at hb
  have hq2 : 1000 / Real.sqrt 6 * (1000 / Real.sqrt 6) = 500000 / 3 := by
    field_simp
    nlinarith
  rw [hq2] at hb
  nlinarith

/-! ## Reconfiguration and the reachable states -/

theorem tetra2pos_edge_pos (sqrt : F → F) (x : t_tetra2pos F) (f : F) (hf : 0 < f) :
    (tetra2pos_edge sqrt x f).1
      = { edge_length := f, positions := anchors sqrt f, debug := x.debug } := by
  unfold tetra2pos_edge
  rw [if_neg (not_le.mpr hf)]
  simp only []
  split_ifs <;> rfl

theorem tetra2pos_edge_nonpos (sqrt : F → F) (x : t_tetra2pos F) (f : F) (hf : f ≤ 0) :
    (tetra2pos_edge sqrt x f).1 = x := by
  unfold tetra2pos_edge
  rw [if_pos hf]

/-- C12: for every edge length `a > 0` the anchor positions after `tetra2pos_edge a` are those
`calculate_positions` derives from `a`, whatever the state was before, and applying
`tetra2pos_edge a` twice gives the same state as applying it once. -/
theorem tetra2pos_edge_idempotent (sqrt : F → F) (s s2 : t_tetra2pos F) (a : F)
    (ha : 0 < a) :
    (tetra2pos_edge sqrt s a).1.positions = anchors sqrt a ∧
      (tetra2pos_edge sqrt s a).1.positions = (tetra2pos_edge sqrt s2 a).1.positions ∧
      (tetra2pos_edge sqrt (tetra2pos_edge sqrt s a).1 a).1 = (tetra2pos_edge sqrt s a).1 := by
  refine ⟨?_, ?_, ?_⟩
  · rw [tetra2pos_edge_pos sqrt s a ha]
  · rw [tetra2pos_edge_pos sqrt s a ha, tetra2pos_edge_pos sqrt s2 a ha]
  · rw [tetra2pos_edge_pos sqrt _ a ha, tetra2pos_edge_pos sqrt s a ha]

/-- C12, at edge length 250, from the object created with edge length 1000 and from the one
created with edge length 3. -/
theorem tetra2pos_edge_idempotent_witness :
    (0 : ℝ) < 250 ∧
      (tetra2pos_edge Real.sqrt (tetra2pos_new Real.sqrt 1000) 250).1.positions
        = anchors Real.sqrt 250 ∧
      (tetra2pos_edge Real.sqrt (tetra2pos_new Real.sqrt 1000) 250).1.positions
        = (tetra2pos_edge Real.sqrt (tetra2pos_new Real.sqrt 3) 250).1.positions ∧
      (tetra2pos_edge Real.sqrt
          (tetra2pos_edge Real.sqrt (tetra2pos_new Real.sqrt 1000) 250).1 250).1
        = (tetra2pos_edge Real.sqrt (tetra2pos_new Real.sqrt 1000) 250).1 :=
  ⟨by norm_num,
   tetra2pos_edge_idempotent Real.sqrt (tetra2pos_new Real.sqrt 1000)
     (tetra2pos_new Real.sqrt 3) 250 (by norm_num)⟩

/-- The invariant of the reachable states. -/
theorem tetra2pos_new_inv (sqrt : F → F) (edge : F) :
    0 < (tetra2pos_new sqrt edge).edge_length ∧
      (tetra2pos_new sqrt edge).positions = anchors sqrt (tetra2pos_new sqrt edge).edge_length := by
  refine ⟨?_, rfl⟩
  show (0 : F) < if edge > 0 then edge else 1000.0
  split_ifs with h
  · exact h
  · norm_num

theorem tetra2pos_method_inv [FloorRing F] {A : Type} (atom_getfloat : A → F) (sqrt : F → F)
    (x : t_tetra2pos F) (m : Message F A)
    (hx : 0 < x.edge_length ∧ x.positions = anchors sqrt x.edge_length) :
    0 < (tetra2pos_method atom_getfloat sqrt x m).1.edge_length ∧
      (tetra2pos_method atom_getfloat sqrt x m).1.positions
        = anchors sqrt (tetra2pos_method atom_getfloat sqrt x m).1.edge_length := by
  cases m with
  | list argv =>
    have h : (tetra2pos_list atom_getfloat x argv).1 = x := by
      unfold tetra2pos_list
      split_ifs <;> rfl
    have hm : (tetra2pos_method atom_getfloat sqrt x (Message.list argv)).1 = x := h
    rw [hm]
    exact hx
  | debug f => exact hx
  | edge f =>
    show 0 < (tetra2pos_edge sqrt x f).1.edge_length ∧
      (tetra2pos_edge sqrt x f).1.positions = anchors sqrt (tetra2pos_edge sqrt x f).1.edge_length
    rcases le_or_lt f 0 with hf | hf
    · rw [tetra2pos_edge_nonpos sqrt x f hf]
      exact hx
    · rw [tetra2pos_edge_pos sqrt x f hf]
      exact ⟨hf, rfl⟩
  | relative argv position =>
    have h : (tetra2pos_relative atom_getfloat sqrt x argv position).1 = x := by
      unfold tetra2pos_relative
      split_ifs <;> rfl
    have hm : (tetra2pos_method atom_getfloat sqrt x (Message.relative argv position)).1 = x :=
      h
    rw [hm]
    exact hx

theorem tetra2pos_run_inv [FloorRing F] {A : Type} (atom_getfloat : A → F) (sqrt : F → F)
    (msgs : List (Message F A)) :
    ∀ x : t_tetra2pos F, (0 < x.edge_length ∧ x.positions = anchors sqrt x.edge_length) →
      0 < (tetra2pos_run atom_getfloat sqrt x msgs).edge_length ∧
        (tetra2pos_run atom_getfloat sqrt x msgs).positions
          = anchors sqrt (tetra2pos_run atom_getfloat sqrt x msgs).edge_length := by
  induction msgs with
  | nil =>
    intro x hx
    exact hx
  | cons m ms ih =>
    intro x hx
    exact ih _ (tetra2pos_method_inv atom_getfloat sqrt x m hx)

/-- C16: in the state made by `tetra2pos_new edge` (edge length 1000 when `edge <= 0`) and
after any finite sequence of `edge`, `debug`, list and `relative` messages, the edge length is
positive and the anchor positions are those `calculate_positions` derives from the current
edge length; list, `relative` and `debug` messages change neither. -/
theorem tetra2pos_reachable_invariant [FloorRing F] {A : Type} (atom_getfloat : A → F)
    (sqrt : F → F) (edge : F) (msgs : List (Message F A)) :
    (0 < (tetra2pos_run atom_getfloat sqrt (tetra2pos_new sqrt edge) msgs).edge_length ∧
        (tetra2pos_run atom_getfloat sqrt (tetra2pos_new sqrt edge) msgs).positions
          = anchors sqrt
              (tetra2pos_run atom_getfloat sqrt (tetra2pos_new sqrt edge) msgs).edge_length) ∧
      ((0 < edge → (tetra2pos_new sqrt edge).edge_length = edge) ∧
        (edge ≤ 0 → (tetra2pos_new sqrt edge).edge_length = 1000)) ∧
      (∀ (x : t_tetra2pos F) (argv : List A) (position : Fin 3 → F) (f : F),
        ((tetra2pos_list atom_getfloat x argv).1.edge_length = x.edge_length ∧
          (tetra2pos_list atom_getfloat x argv).1.positions = x.positions) ∧
        ((tetra2pos_relative atom_getfloat sqrt x argv position).1.edge_length = x.edge_length ∧
          (tetra2pos_relative atom_getfloat sqrt x argv position).1.positions = x.positions) ∧
        ((tetra2pos_debug x f).1.edge_length = x.edge_length ∧
          (tetra2pos_debug x f).1.positions = x.positions)) := by
  refine ⟨tetra2pos_run_inv atom_getfloat sqrt msgs _ (tetra2pos_new_inv sqrt edge),
    ⟨fun h => ?_, fun h => ?_⟩, fun x argv position f => ⟨?_, ?_, ⟨rfl, rfl⟩⟩⟩
  · show (if edge > 0 then edge else 1000.0) = edge
    rw [if_pos h]
  · show (if edge > 0 then edge else 1000.0) = 1000
    rw [if_neg (not_lt.mpr h)]
    norm_num
  · have h : (tetra2pos_list atom_getfloat x argv).1 = x := by
      unfold tetra2pos_list
      split_ifs <;> rfl
    rw [h]
    exact ⟨rfl, rfl⟩
  · have h : (tetra2pos_relative atom_getfloat sqrt x argv position).1 = x := by
      unfold tetra2pos_relative
      split_ifs <;> rfl
    rw [h]
    exact ⟨rfl, rfl⟩

/-! ## Cramer's rule and the TOA equations -/

/-- C15: whenever `|det A| >= 1e-4`, the position `(X, Y, Z)` returned by `solve_position_toa`
satisfies the three equations
`2 (x_i - x_0) X + 2 (y_i - y_0) Y + 2 (z_i - z_0) Z = d_0^2 - d_i^2 - |P_0|^2 + |P_i|^2`,
`i = 1, 2, 3`, and it is their only solution. -/
theorem solve_position_toa_solves (distances : Fin 4 → F) (positions : Fin 4 → Fin 3 → F)
    (hdet : 0.0001 ≤ |det3 (toa_A positions)|) :
    (∀ i : Fin 3,
        2 * (positions i.succ 0 - positions 0 0) * solve_position_toa distances positions 0
          + 2 * (positions i.succ 1 - positions 0 1) * solve_position_toa distances positions 1
          + 2 * (positions i.succ 2 - positions 0 2) * solve_position_toa distances positions 2
        = distances 0 ^ 2 - distances i.succ ^ 2
          - (positions 0 0 ^ 2 + positions 0 1 ^ 2 + positions 0 2 ^ 2)
          + (positions i.succ 0 ^ 2 + positions i.succ 1 ^ 2 + positions i.succ 2 ^ 2)) ∧
      (∀ Y : Fin 3 → F,
        (∀ i : Fin 3,
          2 * (positions i.succ 0 - positions 0 0) * Y 0
            + 2 * (positions i.succ 1 - positions 0 1) * Y 1
            + 2 * (positions i.succ 2 - positions 0 2) * Y 2
          = distances 0 ^ 2 - distances i.succ ^ 2
            - (positions 0 0 ^ 2 + positions 0 1 ^ 2 + positions 0 2 ^ 2)
            + (positions i.succ 0 ^ 2 + positions i.succ 1 ^ 2 + positions i.succ 2 ^ 2)) →
        Y = solve_position_toa distances positions) := by
  constructor
  · intro i
    have h := solve_linear_system_sound (toa_A positions) (toa_b distances positions) hdet i
    simp only [toa_A, toa_b] at h
    simp at h
    unfold solve_position_toa
    rw [h]
    ring
  · intro Y hY
    symm
    apply solve_linear_system_mul _ _ _ hdet
    intro i
    have h := hY i
    simp only [toa_A, toa_b]
    simp
    rw [h]
    ring

/-- C15, at the anchors of edge length 1000 and the distances `(600, 700, 800, 900)`. -/
theorem solve_position_toa_solves_witness :
    0.0001 ≤ |det3 (toa_A (anchors Real.sqrt 1000))| ∧
      ∀ Y : Fin 3 → ℝ,
        (∀ i : Fin 3,
          2 * (anchors Real.sqrt 1000 i.succ 0 - anchors Real.sqrt 1000 0 0) * Y 0
            + 2 * (anchors Real.sqrt 1000 i.succ 1 - anchors Real.sqrt 1000 0 1) * Y 1
            + 2 * (anchors Real.sqrt 1000 i.succ 2 - anchors Real.sqrt 1000 0 2) * Y 2
          = (![600, 700, 800, 900] : Fin 4 → ℝ) 0 ^ 2
            - (![600, 700, 800, 900] : Fin 4 → ℝ) i.succ ^ 2
            - (anchors Real.sqrt 1000 0 0 ^ 2 + anchors Real.sqrt 1000 0 1 ^ 2
                + anchors Real.sqrt 1000 0 2 ^ 2)
            + (anchors Real.sqrt 1000 i.succ 0 ^ 2 + anchors Real.sqrt 1000 i.succ 1 ^ 2
                + anchors Real.sqrt 1000 i.succ 2 ^ 2)) →
        Y = solve_position_toa ![600, 700, 800, 900] (anchors Real.sqrt 1000) :=
  have hdet : 0.0001 ≤ |det3 (toa_A (anchors Real.sqrt 1000))| := by
    rw [det3_anchors]
    norm_num
  ⟨hdet, (solve_position_toa_solves ![600, 700, 800, 900] (anchors Real.sqrt 1000) hdet).2⟩

/-! ## Accepted results of the TDOA search -/

/-- A total error below 1 bounds every reproduced difference: the deviations at anchor 0 and
at anchor `i + 1` are two of the four summands. -/
theorem tdoa_err_diff_lt (sqrt : F → F) (distances : Fin 4 → F)
    (positions : Fin 4 → Fin 3 → F) (r : F) (i : Fin 3)
    (herr : tdoa_err sqrt distances positions r < 1) :
    |(euclid_dist sqrt (tdoa_cand distances positions r) (positions i.succ)
        - euclid_dist sqrt (tdoa_cand distances positions r) (positions 0))
      - (distances i.succ - distances 0)| < 1 := by
  unfold tdoa_err at herr
  rw [Fin.sum_univ_four] at herr
  generalize tdoa_cand distances positions r = X at herr ⊢
  have c0 : tdoa_cand_distances distances r 0 = r := rfl
  have c1 : tdoa_cand_distances distances r 1 = r + (distances 1 - distances 0) := rfl
  have c2 : tdoa_cand_distances distances r 2 = r + (distances 2 - distances 0) := rfl
  have c3 : tdoa_cand_distances distances r 3 = r + (distances 3 - distances 0) := rfl
  rw [c0, c1, c2, c3] at herr
  have a0 := abs_nonneg (euclid_dist sqrt X (positions 0) - r)
  have a1 := abs_nonneg (euclid_dist sqrt X (positions 1) - (r + (distances 1 - distances 0)))
  have a2 := abs_nonneg (euclid_dist sqrt X (positions 2) - (r + (distances 2 - distances 0)))
  have a3 := abs_nonneg (euclid_dist sqrt X (positions 3) - (r + (distances 3 - distances 0)))
  have key : ∀ (e d : F),
      |(e - euclid_dist sqrt X (positions 0)) - d|
        ≤ |e - (r + d)| + |euclid_dist sqrt X (positions 0) - r| := by
    intro e d
    have h : (e - euclid_dist sqrt X (positions 0)) - d
        = (e - (r + d)) - (euclid_dist sqrt X (positions 0) - r) := by ring
    rw [h]
    exact abs_sub _ _
  fin_cases i
  · have h := key (euclid_dist sqrt X (positions 1)) (distances 1 - distances 0)
    show |(euclid_dist sqrt X (positions 1) - euclid_dist sqrt X (positions 0))
      - (distances 1 - distances 0)| < 1
    linarith
  · have h := key (euclid_dist sqrt X (positions 2)) (distances 2 - distances 0)
    show |(euclid_dist sqrt X (positions 2) - euclid_dist sqrt X (positions 0))
      - (distances 2 - distances 0)| < 1
    linarith
  · have h := key (euclid_dist sqrt X (positions 3)) (distances 3 - distances 0)
    show |(euclid_dist sqrt X (positions 3) - euclid_dist sqrt X (positions 0))
      - (distances 3 - distances 0)| < 1
    linarith

/-- C17: if some grid value has total error below 1, so that the search of
`solve_position_tdoa` stops by acceptance, the returned position `X` reproduces every measured
difference to within 1: `| (|X - P_i| - |X - P_0|) - (d_i - d_0) | < 1` for `i = 1, 2, 3`. -/
theorem solve_position_tdoa_accepted_sound [FloorRing F] (sqrt : F → F)
    (distances : Fin 4 → F) (positions : Fin 4 → Fin 3 → F) (result : Fin 3 → F)
    (hacc : ∃ k, k < 990 ∧ tdoa_err sqrt distances positions (tdoa_grid k) < 1) :
    ∀ i : Fin 3,
      |(euclid_dist sqrt (solve_position_tdoa sqrt distances positions result)
            (positions i.succ)
          - euclid_dist sqrt (solve_position_tdoa sqrt distances positions result)
            (positions 0))
        - (distances i.succ - distances 0)| < 1 := by
  intro i
  unfold solve_position_tdoa
  rcases solve_position_tdoa_run_spec sqrt distances positions result with
    ⟨k, _, hk2, _, hk4⟩ | ⟨hall, _⟩
  · rw [hk4]
    exact tdoa_err_diff_lt sqrt distances positions (tdoa_grid k) i hk2
  · obtain ⟨k, hk, hlt⟩ := hacc
    exact absurd hlt (hall k hk)

/-- The source 100 mm beside anchor 0 of the anchors of edge length 1000 is at the first grid
distance from anchor 0. -/
theorem beside_anchor0_dist :
    euclid_dist Real.sqrt ![100, 1000 / Real.sqrt 6, 0] (anchors Real.sqrt 1000 0)
      = tdoa_grid 0 := by
  rw [anchors_eq]
  simp only [euclid_dist, tdoa_grid]
  simp

theorem det3_anchors_1000 : 0.0001 ≤ |det3 (toa_A (anchors Real.sqrt 1000))| := by
  rw [det3_anchors]
  norm_num

/-- C17, at the anchors of edge length 1000 and the true distances of the source 100 mm
beside anchor 0: the first grid value has total error 0. -/
theorem solve_position_tdoa_accepted_sound_witness :
    (∃ k, k < 990 ∧
        tdoa_err Real.sqrt
          (fun k => euclid_dist Real.sqrt ![100, 1000 / Real.sqrt 6, 0] (anchors Real.sqrt 1000 k))
          (anchors Real.sqrt 1000) (tdoa_grid k) < 1) ∧
      ∀ i : Fin 3,
        |(euclid_dist Real.sqrt
              (solve_position_tdoa Real.sqrt
                (fun k =>
                  euclid_dist Real.sqrt ![100, 1000 / Real.sqrt 6, 0] (anchors Real.sqrt 1000 k))
                (anchors Real.sqrt 1000) ![0, 0, 0])
              (anchors Real.sqrt 1000 i.succ)
            - euclid_dist Real.sqrt
              (solve_position_tdoa Real.sqrt
                (fun k =>
                  euclid_dist Real.sqrt ![100, 1000 / Real.sqrt 6, 0] (anchors Real.sqrt 1000 k))
                (anchors Real.sqrt 1000) ![0, 0, 0])
              (anchors Real.sqrt 1000 0))
          - (euclid_dist Real.sqrt ![100, 1000 / Real.sqrt 6, 0] (anchors Real.sqrt 1000 i.succ)
            - euclid_dist Real.sqrt ![100, 1000 / Real.sqrt 6, 0] (anchors Real.sqrt 1000 0))|
          < 1 :=
  have hacc : ∃ k, k < 990 ∧
      tdoa_err Real.sqrt
        (fun k => euclid_dist Real.sqrt ![100, 1000 / Real.sqrt 6, 0] (anchors Real.sqrt 1000 k))
        (anchors Real.sqrt 1000) (tdoa_grid k) < 1 := by
    refine ⟨0, by norm_num, ?_⟩
    have h := (tdoa_cand_true (anchors Real.sqrt 1000) ![100, 1000 / Real.sqrt 6, 0]
      (fun k => euclid_dist Real.sqrt ![100, 1000 / Real.sqrt 6, 0] (anchors Real.sqrt 1000 k))
      det3_anchors_1000 (fun _ => rfl)).2
    rw [beside_anchor0_dist] at h
    rw [h]
    norm_num
  ⟨hacc,
   solve_position_tdoa_accepted_sound Real.sqrt _ (anchors Real.sqrt 1000) ![0, 0, 0] hacc⟩

/-- C18: for every anchor set with `|det A| >= 1e-4` and every source `P` whose true distance
to anchor 0 is the grid value `100 + 10 n`, `n < 990`, the candidate at that grid value is
exactly `P` with total error 0, and `solve_position_tdoa` applied to the true distances stops
by acceptance at a grid value `100 + 10 k` with `k <= n`, after `k + 1` solves. -/
theorem solve_position_tdoa_on_grid_accepts (positions : Fin 4 → Fin 3 → ℝ)
    (P : Fin 3 → ℝ) (result : Fin 3 → ℝ) (n : Nat)
    (hdet : 0.0001 ≤ |det3 (toa_A positions)|)
    (hn : n < 990)
    (hr : euclid_dist Real.sqrt P (positions 0) = tdoa_grid n) :
    (tdoa_cand (fun k => euclid_dist Real.sqrt P (positions k)) positions (tdoa_grid n) = P ∧
        tdoa_err Real.sqrt (fun k => euclid_dist Real.sqrt P (positions k)) positions
          (tdoa_grid n) = 0) ∧
      ∃ k, k ≤ n ∧
        tdoa_err Real.sqrt (fun k => euclid_dist Real.sqrt P (positions k)) positions
          (tdoa_grid k) < 1 ∧
        (∀ j, j < k →
          ¬ tdoa_err Real.sqrt (fun k => euclid_dist Real.sqrt P (positions k)) positions
            (tdoa_grid j) < 1) ∧
        solve_position_tdoa_run Real.sqrt (fun k => euclid_dist Real.sqrt P (positions k))
            positions result
          = (tdoa_cand (fun k => euclid_dist Real.sqrt P (positions k)) positions (tdoa_grid k),
              k + 1) ∧
        solve_position_tdoa Real.sqrt (fun k => euclid_dist Real.sqrt P (positions k))
            positions result
          = tdoa_cand (fun k => euclid_dist Real.sqrt P (positions k)) positions
              (tdoa_grid k) := by
  have ht := tdoa_cand_true positions P (fun k => euclid_dist Real.sqrt P (positions k)) hdet
    (fun _ => rfl)
  rw [hr] at ht
  refine ⟨ht, ?_⟩
  have hacc : tdoa_err Real.sqrt (fun k => euclid_dist Real.sqrt P (positions k)) positions
      (tdoa_grid n) < 1 := by
    rw [ht.2]
    norm_num
  rcases solve_position_tdoa_run_spec Real.sqrt
      (fun k => euclid_dist Real.sqrt P (positions k)) positions result with
    ⟨k, _, hk2, hk3, hk4⟩ | ⟨hall, _⟩
  · refine ⟨k, ?_, hk2, hk3, hk4, ?_⟩
    · by_contra hkn
      exact hk3 n (not_le.mp hkn) hacc
    · unfold solve_position_tdoa
      rw [hk4]
  · exact absurd hacc (hall n hn)

/-- C18, at the anchors of edge length 1000 and the source 100 mm beside anchor 0: the search
stops at the first grid value, after one solve, with the source itself. -/
theorem solve_position_tdoa_on_grid_accepts_witness :
    solve_position_tdoa_run Real.sqrt
        (fun k => euclid_dist Real.sqrt ![100, 1000 / Real.sqrt 6, 0] (anchors Real.sqrt 1000 k))
        (anchors Real.sqrt 1000) ![0, 0, 0]
      = (![100, 1000 / Real.sqrt 6, 0], 1) := by
  obtain ⟨⟨hc, _⟩, k, hk, _, _, hrun, _⟩ :=
    solve_position_tdoa_on_grid_accepts (anchors Real.sqrt 1000)
      ![100, 1000 / Real.sqrt 6, 0] ![0, 0, 0] 0 det3_anchors_1000 (by norm_num)
      beside_anchor0_dist
  have hk0 : k = 0 := Nat.le_zero.mp hk
  rw [hrun, hk0, hc]

end Tetra2pos

namespace Faccwrap

variable {F : Type} [LinearOrderedField F]

/-! ## The accumulator of `faccwrap~` -/

theorem round_half_even_near [FloorRing F] (x : F) :
    |x - (round_half_even x : F)| ≤ 1 / 2 := by
  have h0 : 0 ≤ x - (⌊x⌋ : F) := sub_nonneg.mpr (Int.floor_le x)
  have h1 : x - (⌊x⌋ : F) < 1 := by
    have := Int.lt_floor_add_one x
    linarith
  unfold round_half_even
  rw [abs_le]
  split_ifs with ha hb hc
  · constructor <;> linarith
  · push_cast
    constructor <;> linarith
  · constructor <;> linarith
  · push_cast
    constructor <;> linarith

/-- The contract of `remainder (x, 2)`: the result is in `[-1, 1]` and differs from `x` by
an even integer. -/
theorem remainder_two [FloorRing F] (x : F) :
    (-1 ≤ remainder x 2 ∧ remainder x 2 ≤ 1) ∧
      ∃ m : Int, remainder x 2 - x = 2 * (m : F) := by
  have h := abs_le.mp (round_half_even_near (x / 2))
  constructor
  · unfold remainder
    constructor <;> linarith [h.1, h.2]
  · refine ⟨-round_half_even (x / 2), ?_⟩
    unfold remainder
    push_cast
    ring

/-- The loop of `faccwrap_tilde_perform` entered with `accum`: one output per input sample,
every output in `[-1, 1]` and an even integer away from `accum` plus the inputs so far, and
the final `accum` is the last output (`accum` itself when the block is empty). -/
theorem perform_loop_spec [FloorRing F] (input : List F) :
    ∀ accum : F,
      (perform_loop accum input).2.length = input.length ∧
        (∀ k, k < input.length →
          (-1 ≤ (perform_loop accum input).2.getD k 0 ∧
            (perform_loop accum input).2.getD k 0 ≤ 1) ∧
          ∃ m : Int, (perform_loop accum input).2.getD k 0
            - (accum + (input.take (k + 1)).sum) = 2 * (m : F)) ∧
        (perform_loop accum input).1 = (perform_loop accum input).2.getLastD accum := by
  induction input with
  | nil =>
    intro accum
    refine ⟨rfl, fun k hk => absurd hk (Nat.not_lt_zero k), rfl⟩
  | cons sample rest ih =>
    intro accum
    obtain ⟨hlen, hout, hlast⟩ := ih (remainder (accum + sample) 2)
    obtain ⟨hb, m0, hm0⟩ := remainder_two (accum + sample)
    have hdef : perform_loop accum (sample :: rest)
        = ((perform_loop (remainder (accum + sample) 2) rest).1,
            remainder (accum + sample) 2
              :: (perform_loop (remainder (accum + sample) 2) rest).2) := rfl
    rw [hdef]
    refine ⟨by simp [hlen], ?_, ?_⟩
    · intro k hk
      cases k with
      | zero =>
        refine ⟨by simpa using hb, m0, ?_⟩
        simp only [List.getD_cons_zero, List.take_succ_cons, List.take_zero, List.sum_cons,
          List.sum_nil]
        linarith
      | succ j =>
        have hj : j < rest.length := by simpa using hk
        obtain ⟨hjb, m1, hm1⟩ := hout j hj
        refine ⟨by simpa using hjb, m1 + m0, ?_⟩
        simp only [List.getD_cons_succ, List.take_succ_cons, List.sum_cons]
        push_cast
        linarith
    · show (perform_loop (remainder (accum + sample) 2) rest).1
        = (remainder (accum + sample) 2
            :: (perform_loop (remainder (accum + sample) 2) rest).2).getLastD accum
      rw [List.getLastD_cons]
      exact hlast

/-- C13: for every initial accumulator in `[-1, 1]` and every input block, each output sample
of `faccwrap_tilde_perform` lies in `[-1, 1]` and differs from the initial accumulator plus
the inputs up to that sample by an even integer; the stored accumulator is the last output
(the initial accumulator when the block is empty) and lies in `[-1, 1]`; so does the
accumulator after `faccwrap_tilde_new` and after `faccwrap_tilde_set f` for every `f`. -/
theorem faccwrap_tilde_wraps [FloorRing F] (x : t_faccwrap_tilde F) (input : List F)
    (hx : -1 ≤ x.f_accum ∧ x.f_accum ≤ 1) :
    (faccwrap_tilde_perform x input).2.length = input.length ∧
      (∀ k, k < input.length →
        (-1 ≤ (faccwrap_tilde_perform x input).2.getD k 0 ∧
          (faccwrap_tilde_perform x input).2.getD k 0 ≤ 1) ∧
        ∃ m : Int, (faccwrap_tilde_perform x input).2.getD k 0
          - (x.f_accum + (input.take (k + 1)).sum) = 2 * (m : F)) ∧
      (faccwrap_tilde_perform x input).1.f_accum
        = (faccwrap_tilde_perform x input).2.getLastD x.f_accum ∧
      (-1 ≤ (faccwrap_tilde_perform x input).1.f_accum ∧
        (faccwrap_tilde_perform x input).1.f_accum ≤ 1) ∧
      (-1 ≤ (faccwrap_tilde_new : t_faccwrap_tilde F).f_accum ∧
        (faccwrap_tilde_new : t_faccwrap_tilde F).f_accum ≤ 1) ∧
      (∀ (y : t_faccwrap_tilde F) (f : F),
        -1 ≤ (faccwrap_tilde_set y f).f_accum ∧ (faccwrap_tilde_set y f).f_accum ≤ 1) := by
  obtain ⟨hlen, hout, hlast⟩ := perform_loop_spec input x.f_accum
  refine ⟨hlen, hout, hlast, ?_, ?_, fun y f => (remainder_two f).1⟩
  · show -1 ≤ (perform_loop x.f_accum input).1 ∧ (perform_loop x.f_accum input).1 ≤ 1
    rw [hlast]
    rcases Nat.eq_zero_or_pos input.length with h0 | hpos
    · have hnil : (perform_loop x.f_accum input).2 = [] := by
        apply List.eq_nil_of_length_eq_zero
        rw [hlen, h0]
      rw [hnil]
      exact hx
    · have hk : input.length - 1 < input.length := by omega
      have hb := (hout (input.length - 1) hk).1
      have hne : (perform_loop x.f_accum input).2 ≠ [] := by
        intro h
        rw [h] at hlen
        simp at hlen
        omega
      have hget : (perform_loop x.f_accum input).2.getLastD x.f_accum
          = (perform_loop x.f_accum input).2.getD (input.length - 1) 0 := by
        rw [List.getLastD_eq_getLast?, List.getLast?_eq_getElem?, hlen,
          List.getD_eq_getElem?_getD]
        have hlt : input.length - 1 < (perform_loop x.f_accum input).2.length := by
          rw [hlen]
          exact hk
        rw [List.getElem?_eq_getElem hlt]
        rfl
      rw [hget]
      exact hb
  · show (-1 : F) ≤ 0 ∧ (0 : F) ≤ 1
    constructor <;> norm_num

/-- C13, at the accumulator `1 / 2` and the input block `(3/4, 3/4, 5)`. -/
theorem faccwrap_tilde_wraps_witness :
    (-1 ≤ (1 / 2 : ℚ) ∧ (1 / 2 : ℚ) ≤ 1) ∧
      (faccwrap_tilde_perform (⟨0, 1 / 2⟩ : t_faccwrap_tilde ℚ) [3 / 4, 3 / 4, 5]).2.length
        = 3 ∧
      (-1 ≤ (faccwrap_tilde_perform (⟨0, 1 / 2⟩ : t_faccwrap_tilde ℚ)
          [3 / 4, 3 / 4, 5]).2.getD 2 0 ∧
        (faccwrap_tilde_perform (⟨0, 1 / 2⟩ : t_faccwrap_tilde ℚ)
          [3 / 4, 3 / 4, 5]).2.getD 2 0 ≤ 1) ∧
      (-1 ≤ (faccwrap_tilde_perform (⟨0, 1 / 2⟩ : t_faccwrap_tilde ℚ)
          [3 / 4, 3 / 4, 5]).1.f_accum ∧
        (faccwrap_tilde_perform (⟨0, 1 / 2⟩ : t_faccwrap_tilde ℚ)
          [3 / 4, 3 / 4, 5]).1.f_accum ≤ 1) :=
  have hx : -1 ≤ (1 / 2 : ℚ) ∧ (1 / 2 : ℚ) ≤ 1 := by constructor <;> norm_num
  have h := faccwrap_tilde_wraps (⟨0, 1 / 2⟩ : t_faccwrap_tilde ℚ) [3 / 4, 3 / 4, 5] hx
  ⟨hx, h.1, (h.2.1 2 (by decide)).1, h.2.2.2.1⟩

theorem round_half_even_small [FloorRing F] (y : F) (h1 : -(1 / 2) ≤ y) (h2 : y ≤ 1 / 2) :
    round_half_even y = 0 := by
  unfold round_half_even
  rcases lt_or_le y 0 with hneg | hpos
  · have hf : ⌊y⌋ = -1 := by
      rw [Int.floor_eq_iff]
      push_cast
      constructor <;> linarith
    rw [hf]
    push_cast
    split_ifs with ha hb
    · exfalso
      linarith
    · rfl
    · rfl
  · have hf : ⌊y⌋ = 0 := by
      rw [Int.floor_eq_iff]
      push_cast
      constructor <;> linarith
    rw [hf]
    push_cast
    split_ifs with ha hb
    · rfl
    · exfalso
      linarith
    · rfl

theorem remainder_two_id [FloorRing F] (v : F) (h1 : -1 ≤ v) (h2 : v ≤ 1) :
    remainder v 2 = v := by
  unfold remainder
  rw [round_half_even_small (v / 2) (by linarith) (by linarith)]
  simp

/-- C14, refuted at `set 3`: the stored state is `-1`, not `3`. -/
theorem faccwrap_tilde_set_three :
    (faccwrap_tilde_set (faccwrap_tilde_new : t_faccwrap_tilde ℝ) 3).f_accum = -1 ∧
      (faccwrap_tilde_set (faccwrap_tilde_new : t_faccwrap_tilde ℝ) 3).f_accum ≠ 3 := by
  have hf : ⌊(3 / 2 : ℝ)⌋ = 1 := by
    rw [Int.floor_eq_iff]
    push_cast
    constructor <;> norm_num
  have hr : round_half_even (3 / 2 : ℝ) = 2 := by
    unfold round_half_even
    rw [hf]
    push_cast
    norm_num
  have hv : (faccwrap_tilde_set (faccwrap_tilde_new : t_faccwrap_tilde ℝ) 3).f_accum = -1 := by
    show remainder (3 : ℝ) 2 = -1
    unfold remainder
    rw [hr]
    norm_num
  refine ⟨hv, ?_⟩
  rw [hv]
  norm_num

/-- C14, as amended: after `faccwrap_tilde_set v` the state `f_accum` is `remainder (v, 2)`:
it lies in `[-1, 1]`, differs from `v` by an even integer, and equals `v` exactly when
`-1 <= v <= 1`. -/
theorem faccwrap_tilde_set_state [FloorRing F] (x : t_faccwrap_tilde F) (v : F) :
    (faccwrap_tilde_set x v).f_accum = remainder v 2 ∧
      (-1 ≤ (faccwrap_tilde_set x v).f_accum ∧ (faccwrap_tilde_set x v).f_accum ≤ 1) ∧
      (∃ m : Int, (faccwrap_tilde_set x v).f_accum - v = 2 * (m : F)) ∧
      ((faccwrap_tilde_set x v).f_accum = v ↔ -1 ≤ v ∧ v ≤ 1) := by
  refine ⟨rfl, (remainder_two v).1, (remainder_two v).2, ?_⟩
  constructor
  · intro h
    have hb := (remainder_two v).1
    have h' : remainder v 2 = v := h
    rw [h'] at hb
    exact hb
  · intro h
    exact remainder_two_id v h.1 h.2

/-- C14 as amended, at `set (1 / 4)` and `set 5`: the first is stored as it is, the second
is stored as a value of `[-1, 1]` other than 5. -/
theorem faccwrap_tilde_set_state_witness :
    (faccwrap_tilde_set (faccwrap_tilde_new : t_faccwrap_tilde ℝ) (1 / 4)).f_accum = 1 / 4 ∧
      (faccwrap_tilde_set (faccwrap_tilde_new : t_faccwrap_tilde ℝ) 5).f_accum ≠ 5 :=
  ⟨(faccwrap_tilde_set_state (faccwrap_tilde_new : t_faccwrap_tilde ℝ) (1 / 4)).2.2.2.mpr
      (by constructor <;> norm_num),
   fun h => absurd
     ((faccwrap_tilde_set_state (faccwrap_tilde_new : t_faccwrap_tilde ℝ) 5).2.2.2.mp h).2
     (by norm_num)⟩

end Faccwrap
